import Mathlib

/-!
Shallow embedding of the dungeon-generation / visibility / pathfinding core of
the `curse` repository, together with proofs settling the frozen claims.

Conventions used throughout:
- JavaScript numbers are embedded as `Int` where the source only ever holds
  integers (coordinates, sizes, counts), and as `ℚ` where fractional values
  occur (slopes, costs, random draws).  Every claim settled here is
  insensitive to floating-point rounding: the float-valued expressions the
  claims touch are either exactly representable or only affect an ordering
  that the claims do not depend on.
- A mutable 2D tile array `map[y][x]` is embedded as a function
  `Grid := Int → Int → Tile`; in-place mutation becomes a functional update.
- `Math.random()` draws are threaded explicitly as a list of rationals
  (`Rng`): each `Math.random()` call in the source consumes the next element
  of the stream.  A universally quantified theorem over all streams covers
  every behaviour of the original.
-/

/-- Terrain kind of a tile; the source encodes these as the characters
`#`, `.`, `>`, `+`, `L`, `S`, `^` from `TILE_TYPES` in `Constants.js`. -/
inductive TileChar where
  | wall
  | floor
  | stairs
  | door
  | lockedDoor
  | secretDoor
  | trap
deriving DecidableEq, Repr

/-- Trap payload stored on a tile (`trapData` in `Tile.js` / `TrapGenerator`). -/
structure TrapData where
  damage : Int
  ttype : String
  triggered : Bool
deriving DecidableEq, Repr

/-- One grid cell, from `Tile.js`.  `item`/`entity` are embedded as `Bool`
(the source stores `null` or an object and only tests truthiness). -/
structure Tile where
  char : TileChar := TileChar.wall
  discovered : Bool := false
  visible : Bool := false
  floorType : String := "default"
  item : Bool := false
  entity : Bool := false
  hidden : Bool := false
  trapData : Option TrapData := none
  bloodStain : Int := 0
deriving DecidableEq, Repr

namespace Tile

/-- `Tile.isBlocking` from `Tile.js`: the tile blocks movement iff it is a wall. -/
def isBlocking (t : Tile) : Bool :=
  t.char == TileChar.wall

/-- `Tile.blocksVision` from `Tile.js`: the tile blocks vision iff it is a wall. -/
def blocksVision (t : Tile) : Bool :=
  t.char == TileChar.wall

/-- `Tile.isWalkable` from `Tile.js`: not blocking and not a trap tile. -/
def isWalkable (t : Tile) : Bool :=
  !t.isBlocking && !(t.char == TileChar.trap)

/-- `Tile.isInteractive` from `Tile.js`. -/
def isInteractive (t : Tile) : Bool :=
  t.char == TileChar.door ||
  t.char == TileChar.lockedDoor ||
  t.char == TileChar.secretDoor ||
  t.char == TileChar.stairs

end Tile

/-- The dungeon grid, indexed as `map[y][x]` like the source's 2D array. -/
def Grid : Type := Int → Int → Tile

/-- Functional update of the single cell `map[y][x]`. -/
def setTile (m : Grid) (y x : Int) (t : Tile) : Grid :=
  fun y' x' => if y' = y ∧ x' = x then t else m y' x'

/-- Update only the `char` field of `map[y][x]` (the carving writes
`map[y][x].char = ...` mutate just that field). -/
def setChar (m : Grid) (y x : Int) (c : TileChar) : Grid :=
  setTile m y x { m y x with char := c }

/-- `MapGenerator.initializeMap`: every cell starts as a fresh wall tile. -/
def initializeMap : Grid :=
  fun _ _ => {}

/-- The integer list `[a, a+1, ..., b]` (empty when `b < a`), embedding the
ubiquitous `for (let v = a; v <= b; v++)` loop ranges. -/
def intRange (a b : Int) : List Int :=
  List.map (fun (k : Nat) => a + (k : Int)) (List.range (b + 1 - a).toNat)

/- ------------------------------------------------------------------ -/
/- Corridor carving (`CorridorGenerator.hCorridor` / `vCorridor`)      -/
/- ------------------------------------------------------------------ -/

/-- Body of the carving loops: inside the map bounds, convert a wall cell to
floor, leave anything else untouched. -/
def carveCell (W H : Int) (m : Grid) (y x : Int) : Grid :=
  if 0 ≤ x ∧ x < W ∧ 0 ≤ y ∧ y < H then
    if (m y x).char = TileChar.wall then setChar m y x TileChar.floor else m
  else m

/-- `CorridorGenerator.hCorridor`: carve the horizontal segment at row `y`
from `min x1 x2` to `max x1 x2`. -/
def hCorridor (W H : Int) (m : Grid) (x1 x2 y : Int) : Grid :=
  (intRange (min x1 x2) (max x1 x2)).foldl (fun g x => carveCell W H g y x) m

/-- `CorridorGenerator.vCorridor`: carve the vertical segment at column `x`
from `min y1 y2` to `max y1 y2`. -/
def vCorridor (W H : Int) (m : Grid) (y1 y2 x : Int) : Grid :=
  (intRange (min y1 y2) (max y1 y2)).foldl (fun g y => carveCell W H g y x) m

/-- A single carving call, either horizontal or vertical, so that statements
can quantify over "any corridor segment". -/
inductive CarveSeg where
  | h (x1 x2 y : Int)
  | v (y1 y2 x : Int)

/-- Run one carving call on the grid. -/
def applySeg (W H : Int) (s : CarveSeg) (m : Grid) : Grid :=
  match s with
  | CarveSeg.h x1 x2 y => hCorridor W H m x1 x2 y
  | CarveSeg.v y1 y2 x => vCorridor W H m y1 y2 x

/-- Does the carving call `s` cover the cell at row `y`, column `x`? -/
def segCovers (s : CarveSeg) (y x : Int) : Prop :=
  match s with
  | CarveSeg.h x1 x2 y0 => y = y0 ∧ min x1 x2 ≤ x ∧ x ≤ max x1 x2
  | CarveSeg.v y1 y2 x0 => x = x0 ∧ min y1 y2 ≤ y ∧ y ≤ max y1 y2

instance (s : CarveSeg) (y x : Int) : Decidable (segCovers s y x) := by
  cases s <;> simp [segCovers] <;> infer_instance

/- ------------------------------------------------------------------ -/
/- Random stream                                                       -/
/- ------------------------------------------------------------------ -/

/-- Explicit random source: `stream` holds the successive values of
`Math.random()` (each in `[0,1)` in the real runtime, though theorems
quantify over arbitrary rationals unless stated), and `ids` holds the
successive identifiers produced by `crypto.randomUUID()`. -/
structure Rng where
  stream : List ℚ := []
  ids : List String := []
deriving DecidableEq, Repr

/-- Consume one `Math.random()` draw (0 once the stream is exhausted). -/
def Rng.next (r : Rng) : ℚ × Rng :=
  (r.stream.headD 0, { r with stream := r.stream.tail })

/-- Consume one generated unique id. -/
def Rng.nextId (r : Rng) : String × Rng :=
  (r.ids.headD "", { r with ids := r.ids.tail })

/- ------------------------------------------------------------------ -/
/- Room generation (`RoomGenerator` in `MazeGenerator.js`)             -/
/- ------------------------------------------------------------------ -/

/-- Room record produced by `RoomGenerator.generateRoom`. -/
structure GenRoom where
  x : Int
  y : Int
  width : Int
  height : Int
  isSpecial : Bool
  centerX : Int
  centerY : Int
deriving DecidableEq, Repr

/-- `RoomGenerator.generateRoom`: five `Math.random()` draws pick the
dimensions, the position and the special flag. -/
def generateRoom (minRoomSize maxRoomSize W H : Int) (floor : Int) (rng : Rng) :
    GenRoom × Rng :=
  let (r1, rng) := rng.next
  let (r2, rng) := rng.next
  let (r3, rng) := rng.next
  let (r4, rng) := rng.next
  let (r5, rng) := rng.next
  let width := ⌊r1 * ((maxRoomSize - minRoomSize + 1 : Int) : ℚ)⌋ + minRoomSize
  let height := ⌊r2 * ((maxRoomSize - minRoomSize + 1 : Int) : ℚ)⌋ + minRoomSize
  let x := ⌊r3 * ((W - width - 2 : Int) : ℚ)⌋ + 1
  let y := ⌊r4 * ((H - height - 2 : Int) : ℚ)⌋ + 1
  let isSpecial := decide (r5 < (5 : ℚ)/100 + (floor : ℚ) * (1/100))
  ({ x := x, y := y, width := width, height := height, isSpecial := isSpecial,
     centerX := ⌊(x : ℚ) + (width : ℚ)/2⌋, centerY := ⌊(y : ℚ) + (height : ℚ)/2⌋ },
   rng)

/-- `RoomGenerator.canPlaceRoom`: bounds check, then every cell of the
rectangle plus a one-tile margin must still be wall. -/
def canPlaceRoom (W H : Int) (m : Grid) (room : GenRoom) : Bool :=
  if room.x < 1 ∨ room.y < 1 ∨
      W - 1 ≤ room.x + room.width ∨ H - 1 ≤ room.y + room.height then
    false
  else
    (intRange (room.y - 1) (room.y + room.height)).all fun yy =>
      (intRange (room.x - 1) (room.x + room.width)).all fun xx =>
        (m yy xx).char == TileChar.wall

/-- Update only the `floorType` field of `map[y][x]`. -/
def setFloorType (m : Grid) (y x : Int) (ft : String) : Grid :=
  setTile m y x { m y x with floorType := ft }

/-- Body of the `carveRoom` double loop: the cell becomes floor, and for a
special room its floor style is overwritten. -/
def carveRoomCell (ft : String) (special : Bool) (m : Grid) (y x : Int) : Grid :=
  let m1 := setChar m y x TileChar.floor
  if special then setFloorType m1 y x ft else m1

/-- `RoomGenerator.carveRoom`.  `ftChoice` abstracts the per-cell
`getSpecialFloorType()` random draw (one draw per carved cell of a special
room); quantifying over `ftChoice` covers every behaviour. -/
def carveRoom (ftChoice : Int → Int → String) (m : Grid) (room : GenRoom) : Grid :=
  (intRange room.y (room.y + room.height - 1)).foldl
    (fun g yy =>
      (intRange room.x (room.x + room.width - 1)).foldl
        (fun g2 xx => carveRoomCell (ftChoice yy xx) room.isSpecial g2 yy xx) g)
    m

/-- The accept/carve loop of `RoomGenerator.generateRooms`.  `proposals` is
the stream of candidate rooms produced by the successive `generateRoom`
calls (one per attempt); the loop stops early once `maxRooms` rooms have
been committed. -/
def generateRoomsAux (W H maxRooms : Int) (ftChoice : Int → Int → String)
    (rooms : List GenRoom) (m : Grid) : List GenRoom → List GenRoom × Grid
  | [] => (rooms, m)
  | r :: rest =>
    if maxRooms ≤ (rooms.length : Int) then (rooms, m)
    else if canPlaceRoom W H m r then
      generateRoomsAux W H maxRooms ftChoice (rooms ++ [r]) (carveRoom ftChoice m r) rest
    else
      generateRoomsAux W H maxRooms ftChoice rooms m rest

/-- `RoomGenerator.generateRooms`, starting from an empty room list. -/
def generateRooms (W H maxRooms : Int) (ftChoice : Int → Int → String)
    (m : Grid) (proposals : List GenRoom) : List GenRoom × Grid :=
  generateRoomsAux W H maxRooms ftChoice [] m proposals

/-- Membership of a cell in a room rectangle. -/
def inRect (r : GenRoom) (y x : Int) : Prop :=
  r.x ≤ x ∧ x < r.x + r.width ∧ r.y ≤ y ∧ y < r.y + r.height

instance (r : GenRoom) (y x : Int) : Decidable (inRect r y x) := by
  unfold inRect; infer_instance

/-- Two rooms are separated by at least one tile: any cell of one and any
cell of the other are at Chebyshev distance at least 2, which is exactly
"the rectangles do not overlap, even including a one-tile margin around
either room". -/
def separated (r1 r2 : GenRoom) : Prop :=
  ∀ y1 x1 y2 x2, inRect r1 y1 x1 → inRect r2 y2 x2 →
    2 ≤ max (x1 - x2).natAbs (y1 - y2).natAbs

/- ------------------------------------------------------------------ -/
/- Start position (`MapGenerator.findStartPosition`)                   -/
/- ------------------------------------------------------------------ -/

/-- All grid cells `(y, x)` in the row-major order of the source's nested
`for (y) for (x)` scan. -/
def rowMajor (W H : Int) : List (Int × Int) :=
  (intRange 0 (H - 1)).flatMap fun y => (intRange 0 (W - 1)).map fun x => (y, x)

/-- Accumulator of the farthest-floor-tile scan (`farthestTile` object). -/
structure FarthestTile where
  x : Int
  y : Int
  dist : Int
deriving DecidableEq, Repr

/-- Body of the farthest-tile loop in `findStartPosition`: a floor tile
strictly farther (Manhattan distance to the stairs) than the best so far
replaces it. -/
def farthestStep (sx sy : Int) (m : Grid) (acc : FarthestTile) (c : Int × Int) :
    FarthestTile :=
  if (m c.1 c.2).char = TileChar.floor then
    let d := |c.2 - sx| + |c.1 - sy|
    if acc.dist < d then { x := c.2, y := c.1, dist := d } else acc
  else acc

/-- `MapGenerator.findStartPosition`: the floor tile farthest from the
stairs if one at positive distance exists, else the first floor tile in
row-major order, else (1,1). -/
def findStartPosition (W H : Int) (m : Grid) (sx sy : Int) : Int × Int :=
  let far := (rowMajor W H).foldl (farthestStep sx sy m) { x := 0, y := 0, dist := 0 }
  if 0 < far.dist then (far.x, far.y)
  else
    match (rowMajor W H).find? (fun c => (m c.1 c.2).char == TileChar.floor) with
    | some c => (c.2, c.1)
    | none => (1, 1)

/-- The cell `(y, x)` lies on the grid and holds a floor tile. -/
def isFloorCell (W H : Int) (m : Grid) (y x : Int) : Prop :=
  0 ≤ y ∧ y < H ∧ 0 ≤ x ∧ x < W ∧ (m y x).char = TileChar.floor

instance (W H : Int) (m : Grid) (y x : Int) : Decidable (isFloorCell W H m y x) := by
  unfold isFloorCell; infer_instance

/-- Strict lexicographic (row-major) order on cells `(y, x)`. -/
def lexLT (a b : Int × Int) : Prop :=
  a.1 < b.1 ∨ (a.1 = b.1 ∧ a.2 < b.2)

/-- JavaScript array indexing `l[i]` with an out-of-range default. -/
def listAtD {α : Type} (l : List α) (i : Int) (d : α) : α :=
  if 0 ≤ i then l.getD i.toNat d else d

/- ------------------------------------------------------------------ -/
/- Corridor routing (`CorridorGenerator.connectRooms`)                 -/
/- ------------------------------------------------------------------ -/

/-- `CorridorGenerator.calculateDistance`: Manhattan distance of points. -/
def calculateDistance (ax ay bx by_ : Int) : Int :=
  (ax - bx).natAbs + (ay - by_).natAbs

/-- `CorridorGenerator.createElbowCorridor`: one horizontal and one
vertical run, order decided by one random draw. -/
def createElbowCorridor (W H : Int) (m : Grid) (x1 y1 x2 y2 : Int) (rng : Rng) :
    Grid × Rng :=
  let (r, rng) := rng.next
  if r < mkRat 1 2 then
    (vCorridor W H (hCorridor W H m x1 x2 y1) y1 y2 x2, rng)
  else
    (hCorridor W H (vCorridor W H m y1 y2 x1) x1 x2 y2, rng)

/-- One step of the zigzag loop (alternating horizontal / vertical
segments toward interpolated intermediate targets). -/
def zigzagSteps (W H x2 y2 : Int) (segments : Int) :
    Nat → Int → Int → Int → Grid → Int × Int × Grid
  | 0, _, currentX, currentY, m => (currentX, currentY, m)
  | Nat.succ n, i, currentX, currentY, m =>
    let targetX : Int := if i = segments - 1 then x2
      else currentX + ⌊((x2 - currentX : Int) : ℚ) * (((i + 1 : Int) : ℚ) / (segments : ℚ))⌋
    let targetY : Int := if i = segments - 1 then y2
      else currentY + ⌊((y2 - currentY : Int) : ℚ) * (((i + 1 : Int) : ℚ) / (segments : ℚ))⌋
    if i % 2 = 0 then
      zigzagSteps W H x2 y2 segments n (i + 1) targetX currentY
        (hCorridor W H m currentX targetX currentY)
    else
      zigzagSteps W H x2 y2 segments n (i + 1) currentX targetY
        (vCorridor W H m currentY targetY currentX)

/-- `CorridorGenerator.createZigzagCorridor`.  The interpolation factor
`(i+1)/segments` is embedded exactly in `ℚ`; double rounding could shift an
intermediate target by one tile, which moves the corridor but never
changes the wall-to-floor-only nature of the carving. -/
def createZigzagCorridor (W H : Int) (m : Grid) (x1 y1 x2 y2 : Int) (rng : Rng) :
    Grid × Rng :=
  let (r, rng) := rng.next
  let segments : Int := ⌊r * 3⌋ + 2
  let (currentX, currentY, m) := zigzagSteps W H x2 y2 segments segments.toNat 0 x1 y1 m
  (vCorridor W H (hCorridor W H m currentX x2 currentY) currentY y2 x2, rng)

/-- `CorridorGenerator.createCorridor`: random choice between the elbow and
zigzag styles, from room center to room center. -/
def createCorridor (W H : Int) (m : Grid) (roomA roomB : GenRoom) (rng : Rng) :
    Grid × Rng :=
  let (r, rng) := rng.next
  if r < mkRat 1 2 then
    createElbowCorridor W H m roomA.centerX roomA.centerY roomB.centerX roomB.centerY rng
  else
    createZigzagCorridor W H m roomA.centerX roomA.centerY roomB.centerX roomB.centerY rng

/-- The inner `for (j …)` scan of `connectRooms` for one already-connected
room index: every not-yet-connected room that improves the running minimum
distance is immediately added to the connected set, and the best pair is
overwritten. -/
def scanJ (rooms : List GenRoom) (iRoom : GenRoom) :
    List Nat → (List Nat × Option Int × Option (GenRoom × GenRoom)) →
      List Nat × Option Int × Option (GenRoom × GenRoom)
  | [], st => st
  | j :: js, (connected, minD, best) =>
    if connected.contains j then scanJ rooms iRoom js (connected, minD, best)
    else
      let rj := listAtD rooms (j : Int)
        { x := 0, y := 0, width := 0, height := 0, isSpecial := false, centerX := 0, centerY := 0 }
      let d : Int := calculateDistance iRoom.centerX iRoom.centerY rj.centerX rj.centerY
      let improves := match minD with
        | none => true
        | some dm => decide (d < dm)
      if improves then
        scanJ rooms iRoom js (connected ++ [j], some d, some (iRoom, rj))
      else
        scanJ rooms iRoom js (connected, minD, best)

/-- The outer `for (const i of connected)` scan: a JavaScript `Set` is
iterated in insertion order and also visits elements inserted during the
iteration, so the scan walks the growing `connected` list by position. -/
def scanConn (rooms : List GenRoom) :
    Nat → Nat → List Nat → Option Int → Option (GenRoom × GenRoom) →
      List Nat × Option (GenRoom × GenRoom)
  | 0, _, connected, _, best => (connected, best)
  | Nat.succ fuel, qIdx, connected, minD, best =>
    if h : qIdx < connected.length then
      let i := connected.get ⟨qIdx, h⟩
      let iRoom := listAtD rooms (i : Int)
        { x := 0, y := 0, width := 0, height := 0, isSpecial := false, centerX := 0, centerY := 0 }
      let (connected, minD, best) :=
        scanJ rooms iRoom (List.range rooms.length) (connected, minD, best)
      scanConn rooms fuel (qIdx + 1) connected minD best
    else (connected, best)

/-- The `while (connected.size < rooms.length)` loop of `connectRooms`:
each iteration runs one full scan and carves one corridor for the final
best pair of that scan.  Each scan adds at least one room, so
`rooms.length` iterations always suffice. -/
def connectLoop (W H : Int) (rooms : List GenRoom) :
    Nat → List Nat → Grid → Rng → Grid × Rng
  | 0, _, m, rng => (m, rng)
  | Nat.succ fuel, connected, m, rng =>
    if connected.length < rooms.length then
      let (connected, best) := scanConn rooms rooms.length 0 connected none none
      match best with
      | some (ra, rb) =>
        let (m, rng) := createCorridor W H m ra rb rng
        connectLoop W H rooms fuel connected m rng
      | none => connectLoop W H rooms fuel connected m rng
    else (m, rng)

/-- The trailing extra-corridor loop of `connectRooms` (adds cycles).  The
JS identity test `roomA !== roomB` compares array slots, hence indices. -/
def extraCorridors (W H : Int) (rooms : List GenRoom) :
    Nat → Grid → Rng → Grid × Rng
  | 0, m, rng => (m, rng)
  | Nat.succ n, m, rng =>
    let (ra, rng) := rng.next
    let (rb, rng) := rng.next
    let ia : Int := ⌊ra * (rooms.length : ℚ)⌋
    let ib : Int := ⌊rb * (rooms.length : ℚ)⌋
    if ia ≠ ib then
      let roomA := listAtD rooms ia
        { x := 0, y := 0, width := 0, height := 0, isSpecial := false, centerX := 0, centerY := 0 }
      let roomB := listAtD rooms ib
        { x := 0, y := 0, width := 0, height := 0, isSpecial := false, centerX := 0, centerY := 0 }
      let (m, rng) := createCorridor W H m roomA roomB rng
      extraCorridors W H rooms n m rng
    else
      extraCorridors W H rooms n m rng

/-- `CorridorGenerator.connectRooms`. -/
def connectRooms (W H : Int) (m : Grid) (rooms : List GenRoom) (rng : Rng) :
    Grid × Rng :=
  if rooms.length ≤ 1 then (m, rng)
  else
    let (m, rng) := connectLoop W H rooms rooms.length [0] m rng
    extraCorridors W H rooms (rooms.length / 4) m rng

/- ------------------------------------------------------------------ -/
/- Four-connectivity of floor tiles                                    -/
/- ------------------------------------------------------------------ -/

/-- The four orthogonal neighbours of the cell `(y, x)`. -/
def neighbors4 (c : Int × Int) : List (Int × Int) :=
  [(c.1 + 1, c.2), (c.1 - 1, c.2), (c.1, c.2 + 1), (c.1, c.2 - 1)]

/-- Is `(y, x)` an in-bounds floor cell? -/
def isFloorB (m : Grid) (W H : Int) (c : Int × Int) : Bool :=
  decide (0 ≤ c.1) && decide (c.1 < H) && decide (0 ≤ c.2) && decide (c.2 < W) &&
    ((m c.1 c.2).char == TileChar.floor)

/-- Breadth-first flood fill over in-bounds floor cells. -/
def floodFill (m : Grid) (W H : Int) :
    Nat → List (Int × Int) → List (Int × Int) → List (Int × Int)
  | 0, visited, _ => visited
  | Nat.succ n, visited, frontier =>
    let next := ((frontier.flatMap neighbors4).filter fun c =>
      isFloorB m W H c && !(visited.contains c)).eraseDups
    match next with
    | [] => visited
    | _ => floodFill m W H n (visited ++ next) next

/-- A cell list is closed under floor adjacency: no in-bounds floor cell
outside the list is 4-adjacent to a cell of the list. -/
def floorClosed (m : Grid) (W H : Int) (cells : List (Int × Int)) : Bool :=
  cells.all fun c => (neighbors4 c).all fun c2 =>
    !(isFloorB m W H c2) || cells.contains c2

/- ------------------------------------------------------------------ -/
/- Pathfinder (A*, `PathFinder` in the source)                         -/
/- ------------------------------------------------------------------ -/

/-- The exact value of the double `Math.SQRT2`. -/
def SQRT2 : ℚ := mkRat 6369051672525773 4503599627370496

/-- The exact value of the double literal `1.2` (default heuristic weight). -/
def jsOnePointTwo : ℚ := mkRat 5404319552844595 4503599627370496

/-- The exact value of the double literal `1.4` (diagonal step cost). -/
def jsOnePointFour : ℚ := mkRat 3152519739159347 2251799813685248

/-- The tile interface the `PathFinder` reads (`tile.walkable`,
`tile.hasTrap`, `tile.hidden`, `tile.moveCost`, `tile.transparent`): this
map/tile shape is supplied by the caller, so it is a parameter of the
embedding. -/
structure PTile where
  walkable : Bool := false
  hasTrap : Bool := false
  hidden : Bool := false
  moveCost : Option ℚ := none
  transparent : Bool := true
deriving DecidableEq

/-- The map interface the `PathFinder` consumes: `map.isInBounds(x, y)` and
`map.getTile(x, y)` (which may return nothing). -/
structure PFMap where
  isInBounds : Int → Int → Bool
  getTile : Int → Int → Option PTile

/-- `PathFinder` options (constructor defaults from the source; the entity
positions are the contents of the `entityMap` cache filled by
`updateEntityMap`). -/
structure PFOptions where
  allowDiagonal : Bool := true
  avoidEntities : Bool := true
  avoidTraps : Bool := true
  cutCorners : Bool := false
  maxIterations : Nat := 1000
  heuristicWeight : ℚ := jsOnePointTwo
deriving DecidableEq

/-- `PathFinder.isOccupiedByEntity`. -/
def isOccupiedByEntity (entities : List (Int × Int)) (opts : PFOptions)
    (x y : Int) : Bool :=
  if !opts.avoidEntities then false else entities.contains (x, y)

/-- `PathFinder.isWalkable`: bounds, tile presence, tile walkability,
entity avoidance, and visible-trap avoidance. -/
def pfIsWalkable (map : PFMap) (entities : List (Int × Int)) (opts : PFOptions)
    (x y : Int) : Bool :=
  if !(map.isInBounds x y) then false
  else
    match map.getTile x y with
    | none => false
    | some tile =>
      if !tile.walkable then false
      else if opts.avoidEntities && isOccupiedByEntity entities opts x y then false
      else if opts.avoidTraps && tile.hasTrap && !tile.hidden then false
      else true

/-- A neighbour candidate produced by `checkNeighbor`. -/
structure Neighbor where
  x : Int
  y : Int
  cost : ℚ
deriving DecidableEq

/-- `PathFinder.checkNeighbor`: append the position when walkable, with the
tile's move-cost multiplier applied (a JS truthiness test, so an absent or
zero `moveCost` leaves the base cost). -/
def checkNeighbor (map : PFMap) (entities : List (Int × Int)) (opts : PFOptions)
    (x y : Int) (baseCost : ℚ) (neighbors : List Neighbor) : List Neighbor :=
  if pfIsWalkable map entities opts x y then
    let cost :=
      match map.getTile x y with
      | some tile =>
        match tile.moveCost with
        | some mc => if mc ≠ 0 then baseCost * mc else baseCost
        | none => baseCost
      | none => baseCost
    neighbors ++ [{ x := x, y := y, cost := cost }]
  else neighbors

/-- `PathFinder.getNeighbors`: the four cardinal directions, plus the four
diagonals guarded by the corner-cutting rule. -/
def getNeighbors (map : PFMap) (entities : List (Int × Int)) (opts : PFOptions)
    (x y : Int) : List Neighbor :=
  let n := checkNeighbor map entities opts (x + 1) y 1 []
  let n := checkNeighbor map entities opts (x - 1) y 1 n
  let n := checkNeighbor map entities opts x (y + 1) 1 n
  let n := checkNeighbor map entities opts x (y - 1) 1 n
  if opts.allowDiagonal then
    let diagonalCost := jsOnePointFour
    let n := if opts.cutCorners ||
        (pfIsWalkable map entities opts (x + 1) y && pfIsWalkable map entities opts x (y + 1)) then
      checkNeighbor map entities opts (x + 1) (y + 1) diagonalCost n else n
    let n := if opts.cutCorners ||
        (pfIsWalkable map entities opts (x + 1) y && pfIsWalkable map entities opts x (y - 1)) then
      checkNeighbor map entities opts (x + 1) (y - 1) diagonalCost n else n
    let n := if opts.cutCorners ||
        (pfIsWalkable map entities opts (x - 1) y && pfIsWalkable map entities opts x (y + 1)) then
      checkNeighbor map entities opts (x - 1) (y + 1) diagonalCost n else n
    let n := if opts.cutCorners ||
        (pfIsWalkable map entities opts (x - 1) y && pfIsWalkable map entities opts x (y - 1)) then
      checkNeighbor map entities opts (x - 1) (y - 1) diagonalCost n else n
    n
  else n

/-- `PathFinder.heuristic`: octile distance when diagonals are allowed,
Manhattan distance otherwise. -/
def heuristic (opts : PFOptions) (x1 y1 x2 y2 : Int) : ℚ :=
  if opts.allowDiagonal then
    let dx : ℚ := ((x1 - x2).natAbs : ℚ)
    let dy : ℚ := ((y1 - y2).natAbs : ℚ)
    (dx + dy) + (SQRT2 - 2) * min dx dy
  else
    ((x1 - x2).natAbs : ℚ) + ((y1 - y2).natAbs : ℚ)

/-- `PathFinder.posToKey`: the JS string key `x,y` is in bijection with the
coordinate pair, so keys are embedded as the pairs themselves. -/
def posToKey (x y : Int) : Int × Int := (x, y)

/-- `PathFinder.keyToPos`, the inverse of `posToKey`. -/
def keyToPos (k : Int × Int) : Int × Int := k

/-- `Map.get` on an association-list embedding of a JS `Map`. -/
def mapGet {α : Type} (l : List ((Int × Int) × α)) (k : Int × Int) : Option α :=
  match l.find? (fun e => e.1 == k) with
  | some e => some e.2
  | none => none

/-- `Map.set` on the association-list embedding (overwrites in place,
appends when absent, like a JS `Map`). -/
def mapSet {α : Type} (l : List ((Int × Int) × α)) (k : Int × Int) (v : α) :
    List ((Int × Int) × α) :=
  match l with
  | [] => [(k, v)]
  | e :: rest => if e.1 == k then (k, v) :: rest else e :: mapSet rest k v

/-- An element of the binary-heap priority queue. -/
structure PQElem where
  value : Int × Int
  priority : ℚ
deriving DecidableEq

/-- `PriorityQueue._bubbleUp` / `_bubbleUpElement`: walk the element at
`idx` up while it beats its parent.  Fuelled by the list length (the index
strictly decreases, so that always suffices). -/
def bubbleUpFuel : Nat → List PQElem → Nat → List PQElem
  | 0, vals, _ => vals
  | Nat.succ n, vals, idx =>
    if idx > 0 then
      match vals.get? idx, vals.get? ((idx - 1) / 2) with
      | some e, some p =>
        if p.priority ≤ e.priority then vals
        else bubbleUpFuel n ((vals.set ((idx - 1) / 2) e).set idx p) ((idx - 1) / 2)
      | _, _ => vals
    else vals

/-- The `swap` child-selection logic of `PriorityQueue._sinkDown`. -/
def sinkSwapTarget (vals : List PQElem) (idx : Nat) (element : PQElem) : Option Nat :=
  match vals.get? (2 * idx + 1) with
  | some leftChild =>
    if 2 * idx + 2 < vals.length then
      match vals.get? (2 * idx + 2) with
      | some rightChild =>
        if leftChild.priority < element.priority then
          if rightChild.priority < leftChild.priority then some (2 * idx + 2)
          else some (2 * idx + 1)
        else
          if rightChild.priority < element.priority then some (2 * idx + 2)
          else none
      | none =>
        if leftChild.priority < element.priority then some (2 * idx + 1) else none
    else
      if leftChild.priority < element.priority then some (2 * idx + 1) else none
  | none =>
    if 2 * idx + 2 < vals.length then
      match vals.get? (2 * idx + 2) with
      | some rightChild =>
        if rightChild.priority < element.priority then some (2 * idx + 2) else none
      | none => none
    else none

/-- `PriorityQueue._sinkDown` / `_sinkDownElement`: walk the element at
`idx` down toward the smaller child (`sinkSwapTarget` mirrors the
`swap` selection of the source).  Fuelled by the list length (the index
strictly increases and stays below the length). -/
def sinkDownFuel : Nat → List PQElem → Nat → List PQElem
  | 0, vals, _ => vals
  | Nat.succ n, vals, idx =>
    match vals.get? idx with
    | none => vals
    | some element =>
      match sinkSwapTarget vals idx element with
      | none => vals
      | some s =>
        match vals.get? s with
        | none => vals
        | some sv => sinkDownFuel n ((vals.set idx sv).set s element) s

/-- The binary-heap priority queue of the source.  The `valueMap` auxiliary
index is kept implicit: under `findPath`'s usage every value occurs at most
once in the heap, so lookup by value over the array is the same map. -/
structure PriorityQueue where
  values : List PQElem := []
deriving DecidableEq

/-- `PriorityQueue.isEmpty`. -/
def PriorityQueue.isEmpty (q : PriorityQueue) : Bool :=
  q.values.isEmpty

/-- `PriorityQueue.containsValue`. -/
def PriorityQueue.containsValue (q : PriorityQueue) (v : Int × Int) : Bool :=
  q.values.any (fun e => e.value == v)

/-- `PriorityQueue.enqueue`: push at the end and bubble up. -/
def PriorityQueue.enqueue (q : PriorityQueue) (v : Int × Int) (priority : ℚ) :
    PriorityQueue :=
  let vals := q.values ++ [{ value := v, priority := priority }]
  { values := bubbleUpFuel vals.length vals (vals.length - 1) }

/-- `PriorityQueue.dequeue`: take the root, move the popped last element to
the root and sink it down. -/
def PriorityQueue.dequeue (q : PriorityQueue) : Option (Int × Int) × PriorityQueue :=
  match q.values with
  | [] => (none, q)
  | v0 :: rest =>
    match (v0 :: rest).dropLast with
    | [] => (some v0.value, { values := [] })
    | _ :: ps =>
      let lastE := (v0 :: rest).getLast?.getD v0
      let vals := lastE :: ps
      (some v0.value, { values := sinkDownFuel vals.length vals 0 })

/-- `PriorityQueue.updatePriority`: overwrite the element's priority and
re-heapify from its slot. -/
def PriorityQueue.updatePriority (q : PriorityQueue) (v : Int × Int)
    (newPriority : ℚ) : PriorityQueue :=
  match q.values.findIdx? (fun e => e.value == v) with
  | none => q
  | some idx =>
    match q.values.get? idx with
    | none => q
    | some e =>
      let vals := q.values.set idx { e with priority := newPriority }
      if newPriority < e.priority then { values := bubbleUpFuel vals.length vals idx }
      else if e.priority < newPriority then { values := sinkDownFuel vals.length vals idx }
      else { values := vals }

/-- The mutable state of the A* main loop. -/
structure AStarState where
  openSet : PriorityQueue
  closedSet : List (Int × Int)
  gScore : List ((Int × Int) × ℚ)
  fScore : List ((Int × Int) × ℚ)
  cameFrom : List ((Int × Int) × (Int × Int))

/-- The neighbour-relaxation step inside the A* loop. -/
def processNeighbor (opts : PFOptions) (endX endY : Int)
    (currentKey : Int × Int) (st : AStarState) (neighbor : Neighbor) : AStarState :=
  let neighborKey := posToKey neighbor.x neighbor.y
  if st.closedSet.contains neighborKey then st
  else
    let tentativeGScore := (mapGet st.gScore currentKey).getD 0 + neighbor.cost
    let neighborInOpenSet := st.openSet.containsValue neighborKey
    if !neighborInOpenSet ||
        decide (tentativeGScore < (mapGet st.gScore neighborKey).getD 0) then
      let cameFrom := mapSet st.cameFrom neighborKey currentKey
      let gScore := mapSet st.gScore neighborKey tentativeGScore
      let fval := tentativeGScore +
        heuristic opts neighbor.x neighbor.y endX endY * opts.heuristicWeight
      let fScore := mapSet st.fScore neighborKey fval
      if !neighborInOpenSet then
        { st with openSet := st.openSet.enqueue neighborKey fval,
                  cameFrom := cameFrom, gScore := gScore, fScore := fScore }
      else
        { st with openSet := st.openSet.updatePriority neighborKey fval,
                  cameFrom := cameFrom, gScore := gScore, fScore := fScore }
    else st

/-- `PathFinder.reconstructPath`, walking the `cameFrom` chain backwards.
The walk is fuelled by the size of the `cameFrom` map, which bounds every
acyclic chain (on a cyclic map the original would not terminate). -/
def reconstructAux (cameFrom : List ((Int × Int) × (Int × Int))) :
    Nat → List (Int × Int) → (Int × Int) → List (Int × Int) × (Int × Int)
  | 0, path, current => (path, current)
  | Nat.succ n, path, current =>
    match mapGet cameFrom current with
    | some prev => reconstructAux cameFrom n (keyToPos current :: path) prev
    | none => (path, current)

/-- `PathFinder.reconstructPath`. -/
def reconstructPath (cameFrom : List ((Int × Int) × (Int × Int)))
    (currentKey : Int × Int) : List (Int × Int) :=
  let (path, current) := reconstructAux cameFrom (cameFrom.length + 1) [] currentKey
  if path.isEmpty then path else keyToPos current :: path

/-- The `while (!openSet.isEmpty() && iterations < maxIterations)` loop of
`findPath`; the fuel is the remaining iteration budget. -/
def astarLoop (map : PFMap) (entities : List (Int × Int)) (opts : PFOptions)
    (endX endY : Int) : Nat → AStarState → Option (List (Int × Int))
  | 0, _ => none
  | Nat.succ n, st =>
    if st.openSet.isEmpty then none
    else
      match st.openSet.dequeue with
      | (none, _) => none
      | (some currentKey, openSet) =>
        let (currentX, currentY) := keyToPos currentKey
        if currentX = endX ∧ currentY = endY then
          some (reconstructPath st.cameFrom currentKey)
        else
          let closedSet := st.closedSet ++ [currentKey]
          let neighbors := getNeighbors map entities opts currentX currentY
          let st := neighbors.foldl (processNeighbor opts endX endY currentKey)
            { st with openSet := openSet, closedSet := closedSet }
          astarLoop map entities opts endX endY n st

/-- `PathFinder.findPath`.  The option save/restore of the source is pure
state plumbing with no observable effect on the result, so the options are
passed as a value. -/
def findPath (map : PFMap) (entities : List (Int × Int)) (opts : PFOptions)
    (startX startY endX endY : Int) : Option (List (Int × Int)) :=
  if !(pfIsWalkable map entities opts startX startY) ||
      !(pfIsWalkable map entities opts endX endY) then none
  else
    let startKey := posToKey startX startY
    let g0 : List ((Int × Int) × ℚ) := mapSet [] startKey 0
    let f0 : List ((Int × Int) × ℚ) :=
      mapSet [] startKey (heuristic opts startX startY endX endY)
    let openSet := PriorityQueue.enqueue {} startKey
      ((mapGet f0 startKey).getD 0)
    astarLoop map entities opts endX endY opts.maxIterations
      { openSet := openSet, closedSet := [], gScore := g0, fScore := f0,
        cameFrom := [] }

/- ------------------------------------------------------------------ -/
/- Item placement (`ItemPlacer`)                                       -/
/- ------------------------------------------------------------------ -/

/-- A loot item.  `itype` is the JS `type` field (the item category used by
the type filter); `damage`/`defense` are absent (`none`) when the template
does not carry them; `bonuses` collects the dynamically added bonus keys. -/
structure Item where
  name : String := ""
  itype : String := ""
  damage : Option Int := none
  defense : Option Int := none
  bonuses : List (String × Int) := []
  id : Option String := none
  x : Int := 0
  y : Int := 0
deriving DecidableEq, Repr

/-- `ItemPlacer.adjustItemQuality`: quality multiplier with random
variation, then a depth-scaled chance of a bonus attribute and a name
prefix.  A JS truthiness test `if (item.damage)` is false for an absent or
zero stat. -/
def adjustItemQuality (floorNum : Int) (item : Item) (rng : Rng) : Item × Rng :=
  let (rv, rng) := rng.next
  let qualityMultiplier : ℚ := 1 + (floorNum : ℚ) * (1/10) + (rv * (4/10) - (2/10))
  let item :=
    match item.damage with
    | some d => if d ≠ 0 then
        { item with damage := some (max 1 ⌊(d : ℚ) * qualityMultiplier⌋) } else item
    | none => item
  let item :=
    match item.defense with
    | some d => if d ≠ 0 then
        { item with defense := some (max 1 ⌊(d : ℚ) * qualityMultiplier⌋) } else item
    | none => item
  let specialPropChance : ℚ := 1/10 + (floorNum : ℚ) * (3/100)
  let (rs, rng) := rng.next
  if rs < specialPropChance then
    let (rb, rng) := rng.next
    let bonusType := listAtD ["strength", "defense", "speed", "maxHp"] ⌊rb * 4⌋ ""
    let bonusAmount := max 1 (floorNum / 3)
    let pfx := listAtD ["Fine", "Superior", "Exceptional", "Masterwork", "Legendary"]
      (min (floorNum / 3) 4) ""
    ({ item with bonuses := item.bonuses ++ [(bonusType, bonusAmount)],
                 name := pfx ++ " " ++ item.name }, rng)
  else (item, rng)

/-- `ItemPlacer.getRandomItem`: deep-copy a random template (copying is the
identity on immutable values) and rescale it. -/
def getRandomItem (lootPool : List Item) (floorNum : Int) (rng : Rng) :
    Option Item × Rng :=
  if lootPool.isEmpty then (none, rng)
  else
    let (r, rng) := rng.next
    let item := listAtD lootPool ⌊r * (lootPool.length : ℚ)⌋ {}
    let (item, rng) := adjustItemQuality floorNum item rng
    (some item, rng)

/-- `ItemPlacer.getRandomItemOfType` (the pool here is already filtered by
category). -/
def getRandomItemOfType (items : List Item) (floorNum : Int) (rng : Rng) :
    Option Item × Rng :=
  if items.isEmpty then (none, rng)
  else
    let (r, rng) := rng.next
    let item := listAtD items ⌊r * (items.length : ℚ)⌋ {}
    let (item, rng) := adjustItemQuality floorNum item rng
    (some item, rng)

/-- `ItemPlacer.findValidItemPositions`: floor tiles without an item and
without trap data, borders excluded; positions are `(x, y)` pairs as in the
source. -/
def findValidItemPositions (W H : Int) (m : Grid) : List (Int × Int) :=
  (intRange 1 (H - 2)).flatMap fun y =>
    ((intRange 1 (W - 2)).filter fun x =>
        (m y x).char == TileChar.floor && !(m y x).item && (m y x).trapData == none).map
      fun x => (x, y)

/-- Mutable state threaded through `placeItems`. -/
structure PlaceState where
  m : Grid
  items : List Item
  validPositions : List (Int × Int)
  positions : List ((Int × Int) × Item)
  rng : Rng

/-- `ItemPlacer.placeItemOfType`: claim a random valid position and place a
fresh item of the requested category there. -/
def placeItemOfType (floorNum : Int) (st : PlaceState) (lootPool : List Item)
    (itype : String) : PlaceState :=
  if st.validPositions.isEmpty then st
  else
    let typeItems := lootPool.filter fun it => it.itype == itype
    if typeItems.isEmpty then st
    else
      let (r, rng) := st.rng.next
      let idx := ⌊r * (st.validPositions.length : ℚ)⌋
      let pos := listAtD st.validPositions idx (0, 0)
      let validPositions := st.validPositions.eraseIdx idx.toNat
      match getRandomItemOfType typeItems floorNum rng with
      | (none, rng) => { st with validPositions := validPositions, rng := rng }
      | (some item, rng) =>
        let (uid, rng) := rng.nextId
        let item := { item with id := some uid, x := pos.1, y := pos.2 }
        let m := setTile st.m pos.2 pos.1 { st.m pos.2 pos.1 with item := true }
        { m := m, items := st.items ++ [item],
          validPositions := validPositions,
          positions := st.positions ++ [(pos, item)], rng := rng }

/-- The final random-fill loop of `placeItems` (`for i < itemCount` while
valid positions remain). -/
def placeItemsLoop (floorNum : Int) (lootPool : List Item) :
    Nat → PlaceState → PlaceState
  | 0, st => st
  | Nat.succ n, st =>
    if st.validPositions.isEmpty then st
    else
      let (r, rng) := st.rng.next
      let idx := ⌊r * (st.validPositions.length : ℚ)⌋
      let pos := listAtD st.validPositions idx (0, 0)
      let validPositions := st.validPositions.eraseIdx idx.toNat
      match getRandomItem lootPool floorNum rng with
      | (none, rng) =>
        placeItemsLoop floorNum lootPool n
          { st with validPositions := validPositions, rng := rng }
      | (some item, rng) =>
        let (uid, rng) := rng.nextId
        let item := { item with id := some uid, x := pos.1, y := pos.2 }
        let m := setTile st.m pos.2 pos.1 { st.m pos.2 pos.1 with item := true }
        placeItemsLoop floorNum lootPool n
          { m := m, items := st.items ++ [item],
            validPositions := validPositions,
            positions := st.positions ++ [(pos, item)], rng := rng }

/-- Result of `placeItems`: the returned placement list, the mutated grid
and items array, the emitted console warnings, and the final random state. -/
structure PlaceResult where
  positions : List ((Int × Int) × Item)
  m : Grid
  items : List Item
  log : List String
  rng : Rng

/-- `ItemPlacer.placeItems`.  A missing (`none`) or empty loot pool logs a
warning and places nothing; otherwise a preferential weapon / body armor /
helmet pass precedes the depth-and-difficulty-scaled random fill. -/
def placeItems (W H : Int) (m : Grid) (items : List Item)
    (floorNum difficulty : Int) (lootPool : Option (List Item)) (rng : Rng) :
    PlaceResult :=
  match lootPool with
  | none =>
    { positions := [], m := m, items := items,
      log := ["No loot pool provided for item placement"], rng := rng }
  | some pool =>
    if pool.isEmpty then
      { positions := [], m := m, items := items,
        log := ["No loot pool provided for item placement"], rng := rng }
    else
      let lootFactor : ℚ := (difficulty : ℚ) / 50
      let baseItemCount : Int := 3 + ⌊(floorNum : ℚ) * (12/10)⌋
      let itemCount : Int := ⌊(baseItemCount : ℚ) * lootFactor⌋
      let validPositions := findValidItemPositions W H m
      if validPositions.isEmpty then
        { positions := [], m := m, items := items, log := [], rng := rng }
      else
        let st : PlaceState :=
          { m := m, items := items, validPositions := validPositions,
            positions := [], rng := rng }
        let (r1, rng1) := st.rng.next
        let st := { st with rng := rng1 }
        let st := if r1 < (7 : ℚ)/10 then placeItemOfType floorNum st pool "weapon" else st
        let (r2, rng2) := st.rng.next
        let st := { st with rng := rng2 }
        let st := if r2 < (6 : ℚ)/10 then placeItemOfType floorNum st pool "body_armor" else st
        let (r3, rng3) := st.rng.next
        let st := { st with rng := rng3 }
        let st := if r3 < (5 : ℚ)/10 then placeItemOfType floorNum st pool "helmet" else st
        let st := placeItemsLoop floorNum pool itemCount.toNat st
        { positions := st.positions, m := st.m, items := st.items,
          log := [], rng := st.rng }

/- ------------------------------------------------------------------ -/
/- Concrete inputs used by witnesses and counterexamples               -/
/- ------------------------------------------------------------------ -/

/-- A grid that is all wall except for a floor tile at (0,0). -/
def floorAt00 : Grid :=
  fun y x => if y = 0 ∧ x = 0 then { char := TileChar.floor } else {}

/-- Concrete room proposal used in witnesses. -/
def roomA : GenRoom :=
  { x := 1, y := 1, width := 3, height := 3, isSpecial := false, centerX := 2, centerY := 2 }

/-- Second concrete room proposal used in witnesses. -/
def roomB : GenRoom :=
  { x := 6, y := 1, width := 3, height := 3, isSpecial := false, centerX := 7, centerY := 2 }

/-- Trivial special-floor choice used in witnesses. -/
def wsFt : Int → Int → String := fun _ _ => "default"

/-- Four-connectivity of floor tiles as an inductive reachability
predicate: `FloorConn m W H a b` holds when `b` can be reached from `a`
through orthogonally adjacent in-bounds floor cells. -/
inductive FloorConn (m : Grid) (W H : Int) : (Int × Int) → (Int × Int) → Prop
  | refl (c : Int × Int) : isFloorB m W H c = true → FloorConn m W H c c
  | step (a b c : Int × Int) : FloorConn m W H a b → c ∈ neighbors4 b →
      isFloorB m W H c = true → FloorConn m W H a c

/-- First room of the connectivity failing input (centre (2,2)). -/
def demoRoomA : GenRoom :=
  { x := 1, y := 1, width := 3, height := 3, isSpecial := false, centerX := 2, centerY := 2 }

/-- Second room of the connectivity failing input (centre (14,2)). -/
def demoRoomB : GenRoom :=
  { x := 13, y := 1, width := 3, height := 3, isSpecial := false, centerX := 14, centerY := 2 }

/-- Third room of the connectivity failing input (centre (18,2)). -/
def demoRoomC : GenRoom :=
  { x := 17, y := 1, width := 3, height := 3, isSpecial := false, centerX := 18, centerY := 2 }

/-- Room generation on a 22-by-6 all-wall grid with the three proposals
above; all three are accepted and carved. -/
def demoGenerated : List GenRoom × Grid :=
  generateRooms 22 6 15 wsFt initializeMap [demoRoomA, demoRoomB, demoRoomC]

/-- The grid after `connectRooms` runs on the generated level, with a
`Math.random` stream beginning 0.3, 0.3 (elbow corridor, horizontal
first). -/
def demoConnected : Grid :=
  (connectRooms 22 6 demoGenerated.2 demoGenerated.1
    { stream := [mkRat 3 10, mkRat 3 10] }).1

/-- The flood-fill component of room A's centre in the connected demo
level. -/
def demoComponent : List (Int × Int) :=
  floodFill demoConnected 22 6 12 [(2, 2)] [(2, 2)]

/- ------------------------------------------------------------------ -/
/- Field of view (recursive shadow casting, `FOV` in the source)       -/
/- ------------------------------------------------------------------ -/

/-- The cache fields of the `FOV` object (`visibleTiles`, `lastPlayerPos`,
`lastRadius`) with their constructor values. -/
structure FOVSt where
  visibleTiles : List (Int × Int) := []
  lastX : Int := -1
  lastY : Int := -1
  lastRadius : Int := -1
deriving DecidableEq, Repr

/-- `FOV.mapOctantToCoordinates`. -/
def mapOctantToCoordinates (ox oy row col : Int) (octant : Nat) : Int × Int :=
  match octant with
  | 0 => (ox + col, oy - row)
  | 1 => (ox + row, oy - col)
  | 2 => (ox + row, oy + col)
  | 3 => (ox + col, oy + row)
  | 4 => (ox - col, oy + row)
  | 5 => (ox - row, oy + col)
  | 6 => (ox - row, oy - col)
  | 7 => (ox - col, oy - row)
  | _ => (ox, oy)

/-- `FOV.getSlope`. -/
def getSlope (row : Int) (col : ℚ) : ℚ :=
  col / (row : ℚ)

/-- Mark the cell `map[y][x]` as visible and discovered (the two writes of
`castShadows` / `calculate`). -/
def setVisDisc (m : Grid) (y x : Int) : Grid :=
  setTile m y x { m y x with visible := true, discovered := true }

/-- The inner cell loop of `FOV.castShadows` over the remaining `j` values
of the current row `i`.  `rec` is the recursive `castShadows` call at one
more row (taking map, tile list, start slope, end slope, row).  The state
carries the running `blocked` flag and `newStart` slope of the source. -/
def scanRow (W H ox oy : Int) (radius : Int) (i : Int) (startSlope : ℚ)
    (octant : Nat)
    (rec : Grid → List (Int × Int) → ℚ → ℚ → Int → Grid × List (Int × Int)) :
    List Int → Grid → List (Int × Int) → Bool → ℚ →
      Grid × List (Int × Int) × Bool × ℚ
  | [], m, vis, blocked, newStart => (m, vis, blocked, newStart)
  | j :: js, m, vis, blocked, newStart =>
    let c := mapOctantToCoordinates ox oy i j octant
    if c.1 < 0 ∨ W ≤ c.1 ∨ c.2 < 0 ∨ H ≤ c.2 then
      scanRow W H ox oy radius i startSlope octant rec js m vis blocked newStart
    else
      if radius * radius < (c.1 - ox) * (c.1 - ox) + (c.2 - oy) * (c.2 - oy) then
        scanRow W H ox oy radius i startSlope octant rec js m vis blocked newStart
      else
        let m := setVisDisc m c.2 c.1
        let vis := vis ++ [c]
        if !blocked && (m c.2 c.1).blocksVision then
          let ns := getSlope i ((j : ℚ) - mkRat 1 2)
          let (m, vis) := rec m vis startSlope ns (i + 1)
          scanRow W H ox oy radius i startSlope octant rec js m vis true ns
        else
          if blocked && !(m c.2 c.1).blocksVision then
            let ns := getSlope i ((j : ℚ) - mkRat 1 2)
            scanRow W H ox oy radius i startSlope octant rec js m vis false ns
          else
            scanRow W H ox oy radius i startSlope octant rec js m vis blocked newStart

/-- The outer row loop of `FOV.castShadows` (`for i = row to radius`,
breaking once a fully blocked row is found). -/
def scanRows (W H ox oy : Int) (radius : Int) (octant : Nat)
    (rec : Grid → List (Int × Int) → ℚ → ℚ → Int → Grid × List (Int × Int))
    (startSlope endSlope : ℚ) :
    List Int → Grid → List (Int × Int) → Grid × List (Int × Int)
  | [], m, vis => (m, vis)
  | i :: is, m, vis =>
    match scanRow W H ox oy radius i startSlope octant rec
      (intRange ⌊(i : ℚ) * endSlope⌋ ⌈(i : ℚ) * startSlope⌉) m vis false startSlope with
    | (m, vis, blocked, _) =>
      if blocked then (m, vis)
      else scanRows W H ox oy radius octant rec startSlope endSlope is m vis

/-- `FOV.castShadows`, fuelled: the fuel only bounds the nesting depth of
the wall-triggered recursive calls, each of which starts at least one row
further out, so `radius + 2` at the top level is always enough. -/
def castShadowsAux (W H ox oy : Int) (radius : Int) (octant : Nat) :
    Nat → Grid → List (Int × Int) → Int → ℚ → ℚ → Grid × List (Int × Int)
  | 0, m, vis, _, _, _ => (m, vis)
  | Nat.succ n, m, vis, row, startSlope, endSlope =>
    if startSlope < endSlope then (m, vis)
    else
      scanRows W H ox oy radius octant
        (fun m vis s e r => castShadowsAux W H ox oy radius octant n m vis r s e)
        startSlope endSlope (intRange row radius) m vis

/-- `FOV.calculate`: cache check, origin marking, then the eight octant
sweeps (`castShadows(map, ox, oy, radius, 1, 1.0, 0.0, octant)`). -/
def calculate (W H : Int) (st : FOVSt) (m : Grid) (ox oy radius : Int) :
    FOVSt × Grid :=
  if st.lastX = ox ∧ st.lastY = oy ∧ st.lastRadius = radius then (st, m)
  else
    let st := { st with lastX := ox, lastY := oy, lastRadius := radius }
    let vis : List (Int × Int) := [] ++ [(ox, oy)]
    let m := setVisDisc m oy ox
    let (m, vis) := (List.range 8).foldl
      (fun (p : Grid × List (Int × Int)) octant =>
        castShadowsAux W H ox oy radius octant (radius + 2).toNat p.1 p.2 1 1 0)
      (m, vis)
    ({ st with visibleTiles := vis }, m)

/-- `FOV.resetVisibility`: clear the transient flag on every cell. -/
def resetVisibility (W H : Int) (m : Grid) : Grid :=
  (rowMajor W H).foldl (fun g c => setTile g c.1 c.2 { g c.1 c.2 with visible := false }) m

/-- A tile after the two `castShadows` writes. -/
def markTile (t : Tile) : Tile :=
  { t with visible := true, discovered := true }

/-- Every cell of `m` is either untouched or a visible-and-discovered
marked copy of the corresponding cell of `m0` (the only mutation the FOV
pass performs). -/
def MarkedFrom (m0 m : Grid) : Prop :=
  ∀ y x, m y x = m0 y x ∨ m y x = markTile (m0 y x)

/-- Map with three cells in a row: a walkable start cell (0,0), a blocking
wall cell (1,0) and a walkable goal cell (2,0); used by the pathfinding
witnesses. -/
def pfDemoMap : PFMap :=
  { isInBounds := fun x y => decide (0 ≤ x) && decide (x < 3) && decide (y = 0),
    getTile := fun x _ =>
      if x = 1 then some { walkable := false } else some { walkable := true } }

/- ================= END OF DEFINITIONS (more added above this line) ================= -/

/- ======================= THEOREMS ======================= -/

theorem mem_intRange {a b t : Int} : t ∈ intRange a b ↔ a ≤ t ∧ t ≤ b := by
  unfold intRange
  rw [List.mem_map]
  constructor
  · rintro ⟨k, hk, rfl⟩
    rw [List.mem_range] at hk
    omega
  · intro ⟨h1, h2⟩
    refine ⟨(t - a).toNat, ?_, by omega⟩
    rw [List.mem_range]
    omega

theorem carveCell_apply (W H : Int) (m : Grid) (y x y' x' : Int) :
    carveCell W H m y x y' x' =
      if (y' = y ∧ x' = x) ∧ (0 ≤ x ∧ x < W ∧ 0 ≤ y ∧ y < H) ∧
          (m y x).char = TileChar.wall then
        { m y x with char := TileChar.floor }
      else m y' x' := by
  unfold carveCell setChar setTile
  by_cases hb : 0 ≤ x ∧ x < W ∧ 0 ≤ y ∧ y < H
  · by_cases hw : (m y x).char = TileChar.wall
    · by_cases hp : y' = y ∧ x' = x
      · simp [hp, hb, hw]
      · simp [hp, hb, hw]
    · simp [hb, hw]
  · simp [hb]

theorem foldl_carveH_apply (W H y : Int) (xs : List Int) (m : Grid) (y' x' : Int) :
    (xs.foldl (fun g x => carveCell W H g y x) m) y' x' =
      if (y' = y ∧ x' ∈ xs) ∧ (0 ≤ x' ∧ x' < W ∧ 0 ≤ y' ∧ y' < H) ∧
          (m y' x').char = TileChar.wall then
        { m y' x' with char := TileChar.floor }
      else m y' x' := by
  induction xs generalizing m with
  | nil => simp
  | cons x0 xs ih =>
    rw [List.foldl_cons, ih]
    by_cases hy : y' = y
    · by_cases hx : x' = x0
      · subst hy; subst hx
        rw [carveCell_apply]
        by_cases hb : 0 ≤ x' ∧ x' < W ∧ 0 ≤ y' ∧ y' < H
        · by_cases hw : (m y' x').char = TileChar.wall
          · simp [hb, hw]
          · simp [hb, hw]
        · simp [hb]
      · have hne : carveCell W H m y x0 y' x' = m y' x' := by
          rw [carveCell_apply]
          rw [if_neg]
          intro hcon
          exact hx hcon.1.2
        rw [hne]
        by_cases hmem : x' ∈ xs
        · simp [hy, hx, hmem]
        · simp [hy, hx, hmem]
    · have hne : carveCell W H m y x0 y' x' = m y' x' := by
        rw [carveCell_apply]
        rw [if_neg]
        intro hcon
        exact hy hcon.1.1
      rw [hne]
      simp [hy]

theorem foldl_carveV_apply (W H x : Int) (ys : List Int) (m : Grid) (y' x' : Int) :
    (ys.foldl (fun g y => carveCell W H g y x) m) y' x' =
      if (x' = x ∧ y' ∈ ys) ∧ (0 ≤ x' ∧ x' < W ∧ 0 ≤ y' ∧ y' < H) ∧
          (m y' x').char = TileChar.wall then
        { m y' x' with char := TileChar.floor }
      else m y' x' := by
  induction ys generalizing m with
  | nil => simp
  | cons y0 ys ih =>
    rw [List.foldl_cons, ih]
    by_cases hx : x' = x
    · by_cases hy : y' = y0
      · subst hy; subst hx
        rw [carveCell_apply]
        by_cases hb : 0 ≤ x' ∧ x' < W ∧ 0 ≤ y' ∧ y' < H
        · by_cases hw : (m y' x').char = TileChar.wall
          · simp [hb, hw]
          · simp [hb, hw]
        · simp [hb]
      · have hne : carveCell W H m y0 x y' x' = m y' x' := by
          rw [carveCell_apply]
          rw [if_neg]
          intro hcon
          exact hy hcon.1.1
        rw [hne]
        by_cases hmem : y' ∈ ys
        · simp [hx, hy, hmem]
        · simp [hx, hy, hmem]
    · have hne : carveCell W H m y0 x y' x' = m y' x' := by
        rw [carveCell_apply]
        rw [if_neg]
        intro hcon
        exact hx hcon.1.2
      rw [hne]
      simp [hx]

theorem applySeg_apply (W H : Int) (s : CarveSeg) (m : Grid) (y x : Int) :
    applySeg W H s m y x =
      if segCovers s y x ∧ (0 ≤ x ∧ x < W ∧ 0 ≤ y ∧ y < H) ∧
          (m y x).char = TileChar.wall then
        { m y x with char := TileChar.floor }
      else m y x := by
  cases s with
  | h x1 x2 y0 =>
    show hCorridor W H m x1 x2 y0 y x = _
    unfold hCorridor
    rw [foldl_carveH_apply]
    congr 1
    simp only [segCovers, eq_iff_iff]
    rw [mem_intRange]
  | v y1 y2 x0 =>
    show vCorridor W H m y1 y2 x0 y x = _
    unfold vCorridor
    rw [foldl_carveV_apply]
    congr 1
    simp only [segCovers, eq_iff_iff]
    rw [mem_intRange]

theorem applySeg_char (W H : Int) (s : CarveSeg) (m : Grid) (y x : Int) :
    (applySeg W H s m y x).char = TileChar.floor ∨
      applySeg W H s m y x = m y x := by
  rw [applySeg_apply]
  by_cases h : segCovers s y x ∧ (0 ≤ x ∧ x < W ∧ 0 ≤ y ∧ y < H) ∧
      (m y x).char = TileChar.wall
  · rw [if_pos h]; exact Or.inl rfl
  · rw [if_neg h]; exact Or.inr rfl

theorem carveRoomCell_char (ft : String) (sp : Bool) (m : Grid) (y x y' x' : Int) :
    ((carveRoomCell ft sp m y x) y' x').char =
      if y' = y ∧ x' = x then TileChar.floor else (m y' x').char := by
  unfold carveRoomCell setFloorType setChar setTile
  by_cases hp : y' = y ∧ x' = x
  · cases sp <;> simp [hp]
  · cases sp <;> simp [hp]

theorem carveRow_char (ft : Int → Int → String) (sp : Bool) (yy : Int)
    (xs : List Int) (m : Grid) (y' x' : Int) :
    ((xs.foldl (fun g2 xx => carveRoomCell (ft yy xx) sp g2 yy xx) m) y' x').char =
      if y' = yy ∧ x' ∈ xs then TileChar.floor else (m y' x').char := by
  induction xs generalizing m with
  | nil => simp
  | cons x0 xs ih =>
    rw [List.foldl_cons, ih]
    by_cases hy : y' = yy
    · by_cases hx : x' = x0
      · simp [hy, hx, carveRoomCell_char]
      · by_cases hmem : x' ∈ xs
        · simp [hy, hx, hmem]
        · simp [hy, hx, hmem, carveRoomCell_char]
    · simp [hy, carveRoomCell_char]

theorem carveRect_char (ft : Int → Int → String) (sp : Bool)
    (ys xs : List Int) (m : Grid) (y' x' : Int) :
    ((ys.foldl (fun g yy =>
        xs.foldl (fun g2 xx => carveRoomCell (ft yy xx) sp g2 yy xx) g) m) y' x').char =
      if y' ∈ ys ∧ x' ∈ xs then TileChar.floor else (m y' x').char := by
  induction ys generalizing m with
  | nil => simp
  | cons y0 ys ih =>
    rw [List.foldl_cons, ih]
    by_cases hy : y' = y0
    · by_cases hx : x' ∈ xs
      · simp [hy, hx, carveRow_char]
      · by_cases hmem : y' ∈ ys
        · simp [hy, hx, hmem, carveRow_char]
        · simp [hy, hx, hmem, carveRow_char]
    · by_cases hmem : y' ∈ ys
      · simp [hy, hmem, carveRow_char]
      · simp [hy, hmem, carveRow_char]

theorem carveRoom_char (ft : Int → Int → String) (m : Grid) (r : GenRoom) (y x : Int) :
    ((carveRoom ft m r) y x).char =
      if inRect r y x then TileChar.floor else (m y x).char := by
  unfold carveRoom
  rw [carveRect_char]
  congr 1
  simp only [eq_iff_iff, mem_intRange, inRect]
  omega

theorem canPlaceRoom_wall {W H : Int} {m : Grid} {r : GenRoom}
    (h : canPlaceRoom W H m r = true) :
    ∀ yy xx, r.y - 1 ≤ yy → yy ≤ r.y + r.height →
      r.x - 1 ≤ xx → xx ≤ r.x + r.width → (m yy xx).char = TileChar.wall := by
  intro yy xx hy1 hy2 hx1 hx2
  unfold canPlaceRoom at h
  by_cases hb : r.x < 1 ∨ r.y < 1 ∨ W - 1 ≤ r.x + r.width ∨ H - 1 ≤ r.y + r.height
  · rw [if_pos hb] at h; exact absurd h (by simp)
  · rw [if_neg hb] at h
    have h1 := List.all_eq_true.mp h yy (mem_intRange.mpr ⟨hy1, hy2⟩)
    have h2 := List.all_eq_true.mp h1 xx (mem_intRange.mpr ⟨hx1, hx2⟩)
    exact beq_iff_eq.mp h2

theorem separated_symm {r1 r2 : GenRoom} (h : separated r1 r2) : separated r2 r1 := by
  intro y1 x1 y2 x2 h1 h2
  have := h y2 x2 y1 x1 h2 h1
  omega

theorem separated_of_canPlace {W H : Int} {m : Grid} {r rOld : GenRoom}
    (hplace : canPlaceRoom W H m r = true)
    (hfloor : ∀ y x, inRect rOld y x → (m y x).char = TileChar.floor) :
    separated r rOld := by
  intro y1 x1 y2 x2 hin1 hin2
  by_contra hlt
  have hwall : (m y2 x2).char = TileChar.wall := by
    apply canPlaceRoom_wall hplace
    · unfold inRect at hin1 hin2; omega
    · unfold inRect at hin1 hin2; omega
    · unfold inRect at hin1 hin2; omega
    · unfold inRect at hin1 hin2; omega
  have hfl : (m y2 x2).char = TileChar.floor := hfloor y2 x2 hin2
  rw [hwall] at hfl
  exact absurd hfl (by simp)

theorem generateRoomsAux_pairwise (W H maxRooms : Int) (ft : Int → Int → String)
    (proposals : List GenRoom) :
    ∀ (rooms : List GenRoom) (m : Grid),
      (∀ r ∈ rooms, ∀ y x, inRect r y x → (m y x).char = TileChar.floor) →
      List.Pairwise separated rooms →
      List.Pairwise separated (generateRoomsAux W H maxRooms ft rooms m proposals).1 := by
  induction proposals with
  | nil => intro rooms m _ hsep; exact hsep
  | cons r rest ih =>
    intro rooms m hfloor hsep
    unfold generateRoomsAux
    by_cases hmax : maxRooms ≤ (rooms.length : Int)
    · rw [if_pos hmax]; exact hsep
    · rw [if_neg hmax]
      by_cases hplace : canPlaceRoom W H m r = true
      · rw [if_pos hplace]
        apply ih
        · intro r' hr' y x hin
          rw [carveRoom_char]
          rcases List.mem_append.mp hr' with hold | hnew
          · by_cases hc : inRect r y x
            · rw [if_pos hc]
            · rw [if_neg hc]; exact hfloor r' hold y x hin
          · have : r' = r := by simpa using hnew
            subst this
            rw [if_pos hin]
        · rw [List.pairwise_append]
          refine ⟨hsep, List.pairwise_singleton _ _, ?_⟩
          intro a ha b hb
          have : b = r := by simpa using hb
          subst this
          exact separated_symm (separated_of_canPlace hplace (fun y x hin => hfloor a ha y x hin))
      · rw [if_neg (by simpa using hplace)]
        exact ih rooms m hfloor hsep

/-- C2: a room proposal is accepted only if its rectangle plus a one-tile
margin is still unmodified wall, so any two distinct rooms in the list
returned by `generateRooms` are separated by at least one tile (any cell of
one room and any cell of the other are at Chebyshev distance at least 2,
margins included).  This holds for an arbitrary initial grid and an
arbitrary stream of proposals. -/
theorem rooms_pairwise_separated (W H maxRooms : Int) (ft : Int → Int → String)
    (m : Grid) (proposals : List GenRoom) (i j : Nat)
    (hi : i < ((generateRooms W H maxRooms ft m proposals).1).length)
    (hj : j < ((generateRooms W H maxRooms ft m proposals).1).length)
    (hij : i ≠ j) :
    separated (((generateRooms W H maxRooms ft m proposals).1).get ⟨i, hi⟩)
      (((generateRooms W H maxRooms ft m proposals).1).get ⟨j, hj⟩) := by
  have hpw : List.Pairwise separated (generateRooms W H maxRooms ft m proposals).1 := by
    apply generateRoomsAux_pairwise
    · intro r hr; exact absurd hr (List.not_mem_nil r)
    · exact List.Pairwise.nil
  rcases Nat.lt_or_ge i j with hlt | hge
  · exact List.pairwise_iff_get.mp hpw ⟨i, hi⟩ ⟨j, hj⟩ hlt
  · have hlt : j < i := Nat.lt_of_le_of_ne hge (fun h => hij h.symm)
    exact separated_symm (List.pairwise_iff_get.mp hpw ⟨j, hj⟩ ⟨i, hi⟩ hlt)

theorem applySeg_idem (W H : Int) (s : CarveSeg) (m : Grid) :
    applySeg W H s (applySeg W H s m) = applySeg W H s m := by
  funext y x
  rw [applySeg_apply W H s (applySeg W H s m) y x, applySeg_apply W H s m y x]
  by_cases hb : 0 ≤ x ∧ x < W ∧ 0 ≤ y ∧ y < H
  · by_cases hw : (m y x).char = TileChar.wall
    · by_cases hc : segCovers s y x
      · simp [hb, hw, hc]
      · simp [hb, hw, hc]
    · simp [hb, hw]
  · simp [hb]

theorem applySeg_comm (W H : Int) (s1 s2 : CarveSeg) (m : Grid) :
    applySeg W H s1 (applySeg W H s2 m) = applySeg W H s2 (applySeg W H s1 m) := by
  funext y x
  rw [applySeg_apply W H s1 (applySeg W H s2 m) y x,
      applySeg_apply W H s2 (applySeg W H s1 m) y x,
      applySeg_apply W H s2 m y x, applySeg_apply W H s1 m y x]
  by_cases hb : 0 ≤ x ∧ x < W ∧ 0 ≤ y ∧ y < H
  · by_cases hw : (m y x).char = TileChar.wall
    · by_cases hc1 : segCovers s1 y x
      · by_cases hc2 : segCovers s2 y x
        · simp [hb, hw, hc1, hc2]
        · simp [hb, hw, hc1, hc2]
      · by_cases hc2 : segCovers s2 y x
        · simp [hb, hw, hc1, hc2]
        · simp [hb, hw, hc1, hc2]
    · simp [hb, hw]
  · simp [hb]

theorem applySeg_nonwall (W H : Int) (s : CarveSeg) (m : Grid) (y x : Int)
    (h : (m y x).char ≠ TileChar.wall) : applySeg W H s m y x = m y x := by
  rw [applySeg_apply]
  rw [if_neg]
  intro hcon
  exact h hcon.2.2

/-- C7: corridor carving (`hCorridor` / `vCorridor`) only ever converts wall
tiles to floor and leaves every non-wall tile unchanged; carving any segment
twice equals carving it once, and any two carving calls commute, so the
final state of each tile is independent of the order in which carving calls
touch it. -/
theorem corridor_carving_wall_only_idem_comm :
    (∀ (W H : Int) (m : Grid) (x1 x2 y a b : Int),
        (m a b).char ≠ TileChar.wall → hCorridor W H m x1 x2 y a b = m a b) ∧
    (∀ (W H : Int) (m : Grid) (y1 y2 x a b : Int),
        (m a b).char ≠ TileChar.wall → vCorridor W H m y1 y2 x a b = m a b) ∧
    (∀ (W H : Int) (m : Grid) (x1 x2 y : Int),
        hCorridor W H (hCorridor W H m x1 x2 y) x1 x2 y = hCorridor W H m x1 x2 y) ∧
    (∀ (W H : Int) (m : Grid) (y1 y2 x : Int),
        vCorridor W H (vCorridor W H m y1 y2 x) y1 y2 x = vCorridor W H m y1 y2 x) ∧
    (∀ (W H : Int) (s1 s2 : CarveSeg) (m : Grid),
        applySeg W H s1 (applySeg W H s2 m) = applySeg W H s2 (applySeg W H s1 m)) := by
  refine ⟨?_, ?_, ?_, ?_, ?_⟩
  · intro W H m x1 x2 y a b h
    exact applySeg_nonwall W H (CarveSeg.h x1 x2 y) m a b h
  · intro W H m y1 y2 x a b h
    exact applySeg_nonwall W H (CarveSeg.v y1 y2 x) m a b h
  · intro W H m x1 x2 y
    exact applySeg_idem W H (CarveSeg.h x1 x2 y) m
  · intro W H m y1 y2 x
    exact applySeg_idem W H (CarveSeg.v y1 y2 x) m
  · intro W H s1 s2 m
    exact applySeg_comm W H s1 s2 m

/-- Witness for C7 at a concrete input: the floor tile at (0,0) is not wall,
and carving a horizontal corridor through it leaves it unchanged. -/
theorem corridor_carving_wall_only_idem_comm_witness :
    (floorAt00 0 0).char ≠ TileChar.wall ∧
      hCorridor 5 5 floorAt00 0 4 0 0 0 = floorAt00 0 0 :=
  ⟨by decide, corridor_carving_wall_only_idem_comm.1 5 5 floorAt00 0 4 0 0 0 (by decide)⟩

/-- Witness for C2 at a concrete input: two accepted proposals on the
all-wall grid are separated. -/
theorem rooms_pairwise_separated_witness :
    0 < ((generateRooms 12 7 15 wsFt initializeMap [roomA, roomB]).1).length ∧
    1 < ((generateRooms 12 7 15 wsFt initializeMap [roomA, roomB]).1).length ∧
    separated
      (((generateRooms 12 7 15 wsFt initializeMap [roomA, roomB]).1).get
        ⟨0, by decide⟩)
      (((generateRooms 12 7 15 wsFt initializeMap [roomA, roomB]).1).get
        ⟨1, by decide⟩) :=
  ⟨by decide, by decide,
    rooms_pairwise_separated 12 7 15 wsFt initializeMap [roomA, roomB] 0 1
      (by decide) (by decide) (by decide)⟩

/-- C3 (counterexample to the claim as stated): for a tile whose terrain
kind is trap, `Tile.isWalkable` returns false, not true. -/
theorem trap_not_walkable_counterexample :
    Tile.isWalkable { char := TileChar.trap } = false := by decide

/-- C3 (amended): a tile's terrain kind fully determines passability and
vision blocking: a tile blocks movement iff it is a wall, blocks vision iff
it is a wall (so doors of every kind block neither), and is walkable iff it
is neither a wall nor a trap — in particular trap tiles are NOT walkable
under `Tile.isWalkable`. -/
theorem tile_terrain_determines_passability (t : Tile) :
    t.isBlocking = (t.char == TileChar.wall) ∧
    t.blocksVision = (t.char == TileChar.wall) ∧
    t.isWalkable = (!(t.char == TileChar.wall) && !(t.char == TileChar.trap)) := by
  refine ⟨rfl, rfl, ?_⟩
  unfold Tile.isWalkable Tile.isBlocking
  rfl

theorem mem_rowMajor {W H y x : Int} :
    (y, x) ∈ rowMajor W H ↔ 0 ≤ y ∧ y < H ∧ 0 ≤ x ∧ x < W := by
  unfold rowMajor
  rw [List.mem_flatMap]
  constructor
  · rintro ⟨y0, hy0, hx0⟩
    rcases List.mem_map.mp hx0 with ⟨x0, hx0m, heq⟩
    have h1 : y0 = y ∧ x0 = x := by
      constructor <;> [exact (Prod.mk.injEq _ _ _ _ ▸ heq).1; exact (Prod.mk.injEq _ _ _ _ ▸ heq).2]
    rcases h1 with ⟨rfl, rfl⟩
    have := mem_intRange.mp hy0
    have := mem_intRange.mp hx0m
    omega
  · intro ⟨h1, h2, h3, h4⟩
    refine ⟨y, mem_intRange.mpr ⟨by omega, by omega⟩, List.mem_map.mpr ⟨x, mem_intRange.mpr ⟨by omega, by omega⟩, rfl⟩⟩

theorem rowMajor_pairwise (W H : Int) : (rowMajor W H).Pairwise lexLT := by
  unfold rowMajor
  rw [List.pairwise_flatMap]
  constructor
  · intro y _
    rw [List.pairwise_map]
    have : (intRange 0 (W - 1)).Pairwise (· < ·) := by
      unfold intRange
      rw [List.pairwise_map]
      exact (List.pairwise_lt_range _).imp (fun hab => by omega)
    exact this.imp (fun h => Or.inr ⟨rfl, h⟩)
  · have : (intRange 0 (H - 1)).Pairwise (· < ·) := by
      unfold intRange
      rw [List.pairwise_map]
      exact (List.pairwise_lt_range _).imp (fun hab => by omega)
    apply this.imp
    intro a b hab
    intro p hp q hq
    rcases List.mem_map.mp hp with ⟨x1, _, rfl⟩
    rcases List.mem_map.mp hq with ⟨x2, _, rfl⟩
    exact Or.inl hab

theorem find?_min_of_sorted (p : Int × Int → Bool) :
    ∀ (l : List (Int × Int)), l.Pairwise lexLT → ∀ {a}, l.find? p = some a →
      ∀ b ∈ l, p b = true → a = b ∨ lexLT a b := by
  intro l
  induction l with
  | nil => intro _ a h; simp at h
  | cons c l ih =>
    intro hpw a hfind b hb hpb
    rcases List.pairwise_cons.mp hpw with ⟨hhead, htail⟩
    by_cases hpc : p c = true
    · rw [List.find?_cons_of_pos _ hpc] at hfind
      have hac : c = a := by injection hfind
      subst hac
      rcases List.mem_cons.mp hb with rfl | hbl
      · exact Or.inl rfl
      · exact Or.inr (hhead b hbl)
    · rw [List.find?_cons_of_neg _ hpc] at hfind
      rcases List.mem_cons.mp hb with rfl | hbl
      · exact absurd hpb hpc
      · exact ih htail hfind b hbl hpb

theorem farthestFold_spec (sx sy : Int) (m : Grid) :
    ∀ (cells : List (Int × Int)) (acc : FarthestTile),
      (cells.foldl (farthestStep sx sy m) acc = acc ∧
        ∀ c ∈ cells, (m c.1 c.2).char = TileChar.floor →
          |c.2 - sx| + |c.1 - sy| ≤ acc.dist) ∨
      (acc.dist < (cells.foldl (farthestStep sx sy m) acc).dist ∧
        ∃ c ∈ cells, (m c.1 c.2).char = TileChar.floor ∧
          (cells.foldl (farthestStep sx sy m) acc).x = c.2 ∧
          (cells.foldl (farthestStep sx sy m) acc).y = c.1 ∧
          (cells.foldl (farthestStep sx sy m) acc).dist = |c.2 - sx| + |c.1 - sy| ∧
          ∀ c' ∈ cells, (m c'.1 c'.2).char = TileChar.floor →
            |c'.2 - sx| + |c'.1 - sy| ≤ (cells.foldl (farthestStep sx sy m) acc).dist) := by
  intro cells
  induction cells with
  | nil => intro acc; left; exact ⟨rfl, by simp⟩
  | cons c0 cells ih =>
    intro acc
    rw [List.foldl_cons]
    by_cases hfl : (m c0.1 c0.2).char = TileChar.floor
    · by_cases hgt : acc.dist < |c0.2 - sx| + |c0.1 - sy|
      · have hstep : farthestStep sx sy m acc c0 =
            { x := c0.2, y := c0.1, dist := |c0.2 - sx| + |c0.1 - sy| } := by
          unfold farthestStep
          rw [if_pos hfl, if_pos hgt]
        rw [hstep]
        rcases ih { x := c0.2, y := c0.1, dist := |c0.2 - sx| + |c0.1 - sy| } with ⟨heq, hbound⟩ | ⟨hlt, d, hd, hdfl, hx, hy, hdist, hbound⟩
        · right
          rw [heq]
          refine ⟨by simpa using hgt, c0, List.mem_cons_self _ _, hfl, rfl, rfl, rfl, ?_⟩
          intro c' hc' hfl'
          rcases List.mem_cons.mp hc' with rfl | hmem
          · simp
          · simpa using hbound c' hmem hfl'
        · right
          refine ⟨by simp at hlt ⊢; omega, d, List.mem_cons_of_mem _ hd, hdfl, hx, hy, hdist, ?_⟩
          intro c' hc' hfl'
          rcases List.mem_cons.mp hc' with rfl | hmem
          · simp at hlt ⊢; omega
          · exact hbound c' hmem hfl'
      · have hstep : farthestStep sx sy m acc c0 = acc := by
          unfold farthestStep
          rw [if_pos hfl, if_neg hgt]
        rw [hstep]
        rcases ih acc with ⟨heq, hbound⟩ | ⟨hlt, d, hd, hdfl, hx, hy, hdist, hbound⟩
        · left
          refine ⟨heq, ?_⟩
          intro c' hc' hfl'
          rcases List.mem_cons.mp hc' with rfl | hmem
          · omega
          · exact hbound c' hmem hfl'
        · right
          refine ⟨hlt, d, List.mem_cons_of_mem _ hd, hdfl, hx, hy, hdist, ?_⟩
          intro c' hc' hfl'
          rcases List.mem_cons.mp hc' with rfl | hmem
          · omega
          · exact hbound c' hmem hfl'
    · have hstep : farthestStep sx sy m acc c0 = acc := by
        unfold farthestStep
        rw [if_neg hfl]
      rw [hstep]
      rcases ih acc with ⟨heq, hbound⟩ | ⟨hlt, d, hd, hdfl, hx, hy, hdist, hbound⟩
      · left
        refine ⟨heq, ?_⟩
        intro c' hc' hfl'
        rcases List.mem_cons.mp hc' with rfl | hmem
        · exact absurd hfl' hfl
        · exact hbound c' hmem hfl'
      · right
        refine ⟨hlt, d, List.mem_cons_of_mem _ hd, hdfl, hx, hy, hdist, ?_⟩
        intro c' hc' hfl'
        rcases List.mem_cons.mp hc' with rfl | hmem
        · exact absurd hfl' hfl
        · exact hbound c' hmem hfl'

/-- C10: `findStartPosition` returns a floor tile at maximal Manhattan
distance from the stairs whenever some floor tile lies at positive distance;
otherwise it falls back to the first floor tile in row-major scan order, and
to (1,1) when the grid has no floor tile at all.  Results are `(x, y)`
pairs, cells are addressed as `(y, x)`. -/
theorem findStartPosition_spec (W H : Int) (m : Grid) (sx sy : Int) :
    ((∃ y x, isFloorCell W H m y x ∧ 0 < |x - sx| + |y - sy|) →
      isFloorCell W H m (findStartPosition W H m sx sy).2 (findStartPosition W H m sx sy).1 ∧
      ∀ y x, isFloorCell W H m y x →
        |x - sx| + |y - sy| ≤
          |(findStartPosition W H m sx sy).1 - sx| + |(findStartPosition W H m sx sy).2 - sy|) ∧
    ((¬ ∃ y x, isFloorCell W H m y x ∧ 0 < |x - sx| + |y - sy|) →
      (∃ y x, isFloorCell W H m y x) →
      ∃ y x, findStartPosition W H m sx sy = (x, y) ∧ isFloorCell W H m y x ∧
        ∀ y' x', isFloorCell W H m y' x' →
          ((y, x) = (y', x') ∨ lexLT (y, x) (y', x'))) ∧
    ((¬ ∃ y x, isFloorCell W H m y x) → findStartPosition W H m sx sy = (1, 1)) := by
  have hfold := farthestFold_spec sx sy m (rowMajor W H) { x := 0, y := 0, dist := 0 }
  refine ⟨?_, ?_, ?_⟩
  · rintro ⟨y0, x0, hfc, hpos⟩
    rcases hfold with ⟨heq, hbound⟩ | ⟨hlt, c, hc, hcfl, hx, hy, hdist, hbound⟩
    · exfalso
      have hmem : (y0, x0) ∈ rowMajor W H := by
        rw [mem_rowMajor]
        exact ⟨hfc.1, hfc.2.1, hfc.2.2.1, hfc.2.2.2.1⟩
      have := hbound (y0, x0) hmem hfc.2.2.2.2
      simp at this
      omega
    · have hpos' : 0 < ((rowMajor W H).foldl (farthestStep sx sy m)
          { x := 0, y := 0, dist := 0 }).dist := by
        simpa using hlt
      have hfs : findStartPosition W H m sx sy =
          (((rowMajor W H).foldl (farthestStep sx sy m) { x := 0, y := 0, dist := 0 }).x,
           ((rowMajor W H).foldl (farthestStep sx sy m) { x := 0, y := 0, dist := 0 }).y) := by
        unfold findStartPosition
        rw [if_pos hpos']
      rw [hfs]
      have hcb := mem_rowMajor.mp (by rwa [← Prod.mk.eta (p := c)] at hc)
      constructor
      · show isFloorCell W H m _ _
        rw [hy, hx]
        exact ⟨hcb.1, hcb.2.1, hcb.2.2.1, hcb.2.2.2, hcfl⟩
      · intro y x hfc'
        have hmem : (y, x) ∈ rowMajor W H := by
          rw [mem_rowMajor]
          exact ⟨hfc'.1, hfc'.2.1, hfc'.2.2.1, hfc'.2.2.2.1⟩
        have := hbound (y, x) hmem hfc'.2.2.2.2
        simp only [hx, hy, hdist] at *
        omega
  · intro hnone hsome
    have hdz : ((rowMajor W H).foldl (farthestStep sx sy m)
        { x := 0, y := 0, dist := 0 }).dist = 0 := by
      rcases hfold with ⟨heq, _⟩ | ⟨hlt, c, hc, hcfl, hx, hy, hdist, _⟩
      · rw [heq]
      · exfalso
        have hcb := mem_rowMajor.mp (by rwa [← Prod.mk.eta (p := c)] at hc)
        refine hnone ⟨c.1, c.2, ⟨hcb.1, hcb.2.1, hcb.2.2.1, hcb.2.2.2, hcfl⟩, ?_⟩
        simp at hlt
        omega
    rcases hsome with ⟨y0, x0, hfc⟩
    have hmem : (y0, x0) ∈ rowMajor W H := by
      rw [mem_rowMajor]
      exact ⟨hfc.1, hfc.2.1, hfc.2.2.1, hfc.2.2.2.1⟩
    have hpb : (fun c => (m c.1 c.2).char == TileChar.floor) (y0, x0) = true := by
      simp
      exact hfc.2.2.2.2
    have hsomef : ((rowMajor W H).find?
        (fun c => (m c.1 c.2).char == TileChar.floor)).isSome := by
      rw [List.find?_isSome]
      exact ⟨(y0, x0), hmem, hpb⟩
    rcases Option.isSome_iff_exists.mp hsomef with ⟨c, hfind⟩
    have hfs : findStartPosition W H m sx sy = (c.2, c.1) := by
      unfold findStartPosition
      rw [if_neg (by omega), hfind]
    have hcfl : (m c.1 c.2).char = TileChar.floor := by
      have := List.find?_some hfind
      simpa using this
    have hcmem := List.mem_of_find?_eq_some hfind
    have hcb := mem_rowMajor.mp (by rwa [← Prod.mk.eta (p := c)] at hcmem)
    refine ⟨c.1, c.2, hfs, ⟨hcb.1, hcb.2.1, hcb.2.2.1, hcb.2.2.2, hcfl⟩, ?_⟩
    intro y' x' hfc'
    have hmem' : (y', x') ∈ rowMajor W H := by
      rw [mem_rowMajor]
      exact ⟨hfc'.1, hfc'.2.1, hfc'.2.2.1, hfc'.2.2.2.1⟩
    have hmin := find?_min_of_sorted _ (rowMajor W H) (rowMajor_pairwise W H) hfind
      (y', x') hmem' (by simp; exact hfc'.2.2.2.2)
    rcases hmin with heq | hlx
    · left; rw [← heq]
    · right
      have : c = (c.1, c.2) := rfl
      rwa [← this]
  · intro hnone
    have hdz : ((rowMajor W H).foldl (farthestStep sx sy m)
        { x := 0, y := 0, dist := 0 }).dist = 0 := by
      rcases hfold with ⟨heq, _⟩ | ⟨hlt, c, hc, hcfl, hx, hy, hdist, _⟩
      · rw [heq]
      · exfalso
        have hcb := mem_rowMajor.mp (by rwa [← Prod.mk.eta (p := c)] at hc)
        exact hnone ⟨c.1, c.2, hcb.1, hcb.2.1, hcb.2.2.1, hcb.2.2.2, hcfl⟩
    have hfn : (rowMajor W H).find?
        (fun c => (m c.1 c.2).char == TileChar.floor) = none := by
      cases hfind : (rowMajor W H).find? (fun c => (m c.1 c.2).char == TileChar.floor) with
      | none => rfl
      | some c =>
        exfalso
        have hcfl : (m c.1 c.2).char = TileChar.floor := by
          have := List.find?_some hfind
          simpa using this
        have hcmem := List.mem_of_find?_eq_some hfind
        have hcb := mem_rowMajor.mp (by rwa [← Prod.mk.eta (p := c)] at hcmem)
        exact hnone ⟨c.1, c.2, hcb.1, hcb.2.1, hcb.2.2.1, hcb.2.2.2, hcfl⟩
    unfold findStartPosition
    rw [if_neg (by omega), hfn]

/-- Witness for C10 at a concrete input: a 3-wide, 1-tall grid whose only
floor tile (0,0) lies at distance 2 from the stairs at (2,0). -/
theorem findStartPosition_spec_witness :
    (∃ y x, isFloorCell 3 1 floorAt00 y x ∧ 0 < |x - 2| + |y - 0|) ∧
    (isFloorCell 3 1 floorAt00 (findStartPosition 3 1 floorAt00 2 0).2
        (findStartPosition 3 1 floorAt00 2 0).1 ∧
      ∀ y x, isFloorCell 3 1 floorAt00 y x →
        |x - 2| + |y - 0| ≤
          |(findStartPosition 3 1 floorAt00 2 0).1 - 2| +
            |(findStartPosition 3 1 floorAt00 2 0).2 - 0|) :=
  ⟨⟨0, 0, by decide, by decide⟩,
   (findStartPosition_spec 3 1 floorAt00 2 0).1 ⟨0, 0, by decide, by decide⟩⟩

/-- C9: item distribution called with a missing or empty loot pool places
zero items, leaves the grid and the items list untouched, and emits exactly
the console warning about the missing pool. -/
theorem placeItems_empty_pool (W H : Int) (m : Grid) (items : List Item)
    (floorNum difficulty : Int) (rng : Rng) (pool : Option (List Item))
    (hpool : pool = none ∨ pool = some []) :
    (placeItems W H m items floorNum difficulty pool rng).positions = [] ∧
    (placeItems W H m items floorNum difficulty pool rng).m = m ∧
    (placeItems W H m items floorNum difficulty pool rng).items = items ∧
    (placeItems W H m items floorNum difficulty pool rng).log =
      ["No loot pool provided for item placement"] := by
  rcases hpool with rfl | rfl <;> simp [placeItems]

/-- Witness for C9 at a concrete input: a missing pool on the all-wall grid. -/
theorem placeItems_empty_pool_witness :
    ((none : Option (List Item)) = none ∨ (none : Option (List Item)) = some []) ∧
    ((placeItems 5 5 initializeMap [] 1 50 none {}).positions = [] ∧
      (placeItems 5 5 initializeMap [] 1 50 none {}).m = initializeMap ∧
      (placeItems 5 5 initializeMap [] 1 50 none {}).items = [] ∧
      (placeItems 5 5 initializeMap [] 1 50 none {}).log =
        ["No loot pool provided for item placement"]) :=
  ⟨Or.inl rfl, placeItems_empty_pool 5 5 initializeMap [] 1 50 {} none (Or.inl rfl)⟩

theorem not_conn_of_closed {m : Grid} {W H : Int} {S : List (Int × Int)}
    {c1 c2 : Int × Int} (hclosed : floorClosed m W H S = true)
    (h1 : S.contains c1 = true) (h2 : S.contains c2 = false) :
    ¬ FloorConn m W H c1 c2 := by
  intro hconn
  have hmem : ∀ c : Int × Int, FloorConn m W H c1 c → S.contains c = true := by
    intro c hc
    induction hc with
    | refl hfl => exact h1
    | step b c hab hnb hfl ih =>
      have hb := List.all_eq_true.mp (by exact hclosed) b (List.mem_of_elem_eq_true ih)
      have hor := List.all_eq_true.mp hb c hnb
      rcases Bool.or_eq_true_iff.mp hor with hno | hyes
      · rw [hfl] at hno
        simp at hno
      · exact hyes
  have := hmem c2 hconn
  rw [h2] at this
  exact absurd this (by simp)

/-- C1 fails on the code: on a 22-by-6 grid, room generation commits the
three proposed rooms, yet after `connectRooms` (random stream 0.3, 0.3) the
carved centre (2,2) of the first room and the carved centre (14,2) of the
second room lie in different 4-connected floor components: the flood-fill
component of (2,2) is closed under floor adjacency and misses (2,14).  The
scan of `connectRooms` marks every distance-improving room as connected but
only carves a corridor for the final best pair, so the first room is left
without any corridor. -/
theorem connectRooms_demo_disconnected :
    demoGenerated.1 = [demoRoomA, demoRoomB, demoRoomC] ∧
    (demoConnected 2 2).char = TileChar.floor ∧
    (demoConnected 2 14).char = TileChar.floor ∧
    ¬ FloorConn demoConnected 22 6 (2, 2) (2, 14) :=
  ⟨by decide, by decide, by decide,
   not_conn_of_closed (S := demoComponent) (by decide) (by decide) (by decide)⟩

/-- C4 (counterexample to the claim as stated): with the start walkable,
`findPath` from (0,0) to (0,0) returns the empty path, not the
single-element path [(0,0)]: `reconstructPath` only prepends the start
when the walked path is non-empty. -/
theorem findPath_trivial_counterexample :
    findPath pfDemoMap [] {} 0 0 0 0 = some [] ∧
      (some [] : Option (List (Int × Int))) ≠ some [(0, 0)] := by
  constructor
  · decide
  · decide

/-- C4 (amended): whenever the start cell is walkable and at least one
iteration is allowed, `findPath` with identical start and goal returns the
empty path (total cost 0, trivially). -/
theorem findPath_same_start_goal (map : PFMap) (entities : List (Int × Int))
    (opts : PFOptions) (x y : Int)
    (hw : pfIsWalkable map entities opts x y = true)
    (hiter : 1 ≤ opts.maxIterations) :
    findPath map entities opts x y x y = some [] := by
  obtain ⟨n, hn⟩ : ∃ n, opts.maxIterations = n + 1 :=
    ⟨opts.maxIterations - 1, by omega⟩
  unfold findPath
  rw [hw]
  simp only [Bool.not_true, Bool.false_or, Bool.or_self]
  rw [if_neg (by simp), hn]
  simp [astarLoop, PriorityQueue.enqueue, bubbleUpFuel, PriorityQueue.isEmpty,
    PriorityQueue.dequeue, keyToPos, posToKey, reconstructPath, reconstructAux,
    mapGet, mapSet]

/-- Witness for the amended C4 at a concrete input: (0,0) is walkable on
the demo map and the default iteration budget is positive. -/
theorem findPath_same_start_goal_witness :
    pfIsWalkable pfDemoMap [] {} 0 0 = true ∧ 1 ≤ PFOptions.maxIterations {} ∧
      findPath pfDemoMap [] {} 0 0 0 0 = some [] :=
  ⟨by decide, by decide, findPath_same_start_goal pfDemoMap [] {} 0 0 (by decide) (by decide)⟩

theorem bubbleUpFuel_subset :
    ∀ (fuel : Nat) (vals : List PQElem) (idx : Nat) (e : PQElem),
      e ∈ bubbleUpFuel fuel vals idx → e ∈ vals := by
  intro fuel
  induction fuel with
  | zero => intro vals idx e h; exact h
  | succ n ih =>
    intro vals idx e h
    unfold bubbleUpFuel at h
    by_cases hidx : idx > 0
    · rw [if_pos hidx] at h
      cases hg : vals.get? idx with
      | none => rw [hg] at h; exact h
      | some ev =>
        cases hp : vals.get? ((idx - 1) / 2) with
        | none => rw [hg, hp] at h; exact h
        | some pv =>
          rw [hg, hp] at h
          dsimp only at h
          by_cases hcmp : pv.priority ≤ ev.priority
          · rw [if_pos hcmp] at h; exact h
          · rw [if_neg hcmp] at h
            have h2 := ih _ _ _ h
            rcases List.mem_or_eq_of_mem_set h2 with h3 | h3
            · rcases List.mem_or_eq_of_mem_set h3 with h4 | h4
              · exact h4
              · subst h4; exact List.get?_mem hg
            · subst h3; exact List.get?_mem hp
    · rw [if_neg hidx] at h; exact h

theorem sinkDownFuel_subset :
    ∀ (fuel : Nat) (vals : List PQElem) (idx : Nat) (e : PQElem),
      e ∈ sinkDownFuel fuel vals idx → e ∈ vals := by
  intro fuel
  induction fuel with
  | zero => intro vals idx e h; exact h
  | succ n ih =>
    intro vals idx e h
    unfold sinkDownFuel at h
    cases hg : vals.get? idx with
    | none => rw [hg] at h; exact h
    | some ev =>
      rw [hg] at h
      dsimp only at h
      cases hsw : sinkSwapTarget vals idx ev with
      | none => rw [hsw] at h; exact h
      | some s =>
        rw [hsw] at h
        dsimp only at h
        cases hs : vals.get? s with
        | none => rw [hs] at h; exact h
        | some sv =>
          rw [hs] at h
          dsimp only at h
          have h2 := ih _ _ _ h
          rcases List.mem_or_eq_of_mem_set h2 with h3 | h3
          · rcases List.mem_or_eq_of_mem_set h3 with h4 | h4
            · exact h4
            · subst h4; exact List.get?_mem hs
          · subst h3; exact List.get?_mem hg

theorem enqueue_values_cases (q : PriorityQueue) (v : Int × Int) (p : ℚ) :
    ∀ e ∈ (q.enqueue v p).values, e ∈ q.values ∨ e = { value := v, priority := p } := by
  intro e he
  unfold PriorityQueue.enqueue at he
  have h1 := bubbleUpFuel_subset _ _ _ _ he
  rcases List.mem_append.mp h1 with h2 | h2
  · exact Or.inl h2
  · exact Or.inr (by simpa using h2)

theorem dequeue_fst_mem {q : PriorityQueue} {k : Int × Int} {q' : PriorityQueue}
    (h : q.dequeue = (some k, q')) : ∃ e ∈ q.values, e.value = k := by
  unfold PriorityQueue.dequeue at h
  cases hv : q.values with
  | nil => rw [hv] at h; exact absurd h (by simp)
  | cons v0 rest =>
    rw [hv] at h
    dsimp only at h
    cases hdl : (v0 :: rest).dropLast with
    | nil =>
      rw [hdl] at h
      dsimp only at h
      have : v0.value = k := by
        have := congrArg Prod.fst h
        simpa using this
      exact ⟨v0, List.mem_cons_self _ _, this⟩
    | cons p0 ps =>
      rw [hdl] at h
      dsimp only at h
      have : v0.value = k := by
        have := congrArg Prod.fst h
        simpa using this
      exact ⟨v0, List.mem_cons_self _ _, this⟩

theorem dequeue_snd_subset {q : PriorityQueue} {k : Int × Int} {q' : PriorityQueue}
    (h : q.dequeue = (some k, q')) : ∀ e ∈ q'.values, e ∈ q.values := by
  unfold PriorityQueue.dequeue at h
  cases hv : q.values with
  | nil => rw [hv] at h; exact absurd h (by simp)
  | cons v0 rest =>
    rw [hv] at h
    dsimp only at h
    cases hdl : (v0 :: rest).dropLast with
    | nil =>
      rw [hdl] at h
      dsimp only at h
      have hq' : q' = { values := [] } := by
        exact (congrArg Prod.snd h).symm
      intro e he
      rw [hq'] at he
      exact absurd he (by simp)
    | cons p0 ps =>
      rw [hdl] at h
      dsimp only at h
      have hq' : q'.values =
          sinkDownFuel (((v0 :: rest).getLast?.getD v0) :: ps).length
            (((v0 :: rest).getLast?.getD v0) :: ps) 0 := by
        have := congrArg Prod.snd h
        simp at this
        rw [← this]
        rfl
      intro e he
      rw [hq'] at he
      have h2 := sinkDownFuel_subset _ _ _ _ he
      rcases List.mem_cons.mp h2 with h3 | h3
      · subst h3
        cases hgl : (v0 :: rest).getLast? with
        | none => simp [hgl]
        | some l =>
          simp only [hgl, Option.getD_some]
          exact List.mem_of_mem_getLast? hgl
      · have : e ∈ p0 :: ps := List.mem_cons_of_mem _ h3
        rw [← hdl] at this
        exact List.mem_of_mem_dropLast this

theorem updatePriority_value_mem (q : PriorityQueue) (v : Int × Int) (p : ℚ) :
    ∀ e ∈ (q.updatePriority v p).values, ∃ e' ∈ q.values, e.value = e'.value := by
  intro e he
  unfold PriorityQueue.updatePriority at he
  cases hfi : q.values.findIdx? (fun e => e.value == v) with
  | none =>
    rw [hfi] at he
    exact ⟨e, he, rfl⟩
  | some idx =>
    rw [hfi] at he
    dsimp only at he
    cases hg : q.values.get? idx with
    | none =>
      rw [hg] at he
      exact ⟨e, he, rfl⟩
    | some e0 =>
      rw [hg] at he
      dsimp only at he
      have hset : ∀ x ∈ q.values.set idx { e0 with priority := p },
          ∃ e' ∈ q.values, x.value = e'.value := by
        intro x hx
        rcases List.mem_or_eq_of_mem_set hx with h1 | h1
        · exact ⟨x, h1, rfl⟩
        · subst h1
          exact ⟨e0, List.get?_mem hg, rfl⟩
      by_cases hlt : p < e0.priority
      · rw [if_pos hlt] at he
        exact hset _ (bubbleUpFuel_subset _ _ _ _ he)
      · rw [if_neg hlt] at he
        by_cases hgt : e0.priority < p
        · rw [if_pos hgt] at he
          exact hset _ (sinkDownFuel_subset _ _ _ _ he)
        · rw [if_neg hgt] at he
          exact hset _ he

theorem processNeighbor_openSet_inv {S : List (Int × Int)} (opts : PFOptions)
    (endX endY : Int) (ck : Int × Int) (st : AStarState) (nb : Neighbor)
    (hst : ∀ e ∈ st.openSet.values, e.value ∈ S) (hnb : (nb.x, nb.y) ∈ S) :
    ∀ e ∈ (processNeighbor opts endX endY ck st nb).openSet.values, e.value ∈ S := by
  intro e he
  unfold processNeighbor at he
  by_cases hcl : st.closedSet.contains (posToKey nb.x nb.y) = true
  · rw [if_pos hcl] at he
    exact hst e he
  · rw [if_neg hcl] at he
    dsimp only at he
    by_cases hcond : (!st.openSet.containsValue (posToKey nb.x nb.y) ||
        decide ((mapGet st.gScore ck).getD 0 + nb.cost <
          (mapGet st.gScore (posToKey nb.x nb.y)).getD 0)) = true
    · rw [if_pos hcond] at he
      by_cases hin : (!st.openSet.containsValue (posToKey nb.x nb.y)) = true
      · rw [if_pos hin] at he
        dsimp only at he
        rcases enqueue_values_cases _ _ _ e he with h1 | h1
        · exact hst e h1
        · rw [h1]
          exact hnb
      · rw [if_neg hin] at he
        dsimp only at he
        rcases updatePriority_value_mem _ _ _ e he with ⟨e', he', hve⟩
        rw [hve]
        exact hst e' he'
    · rw [if_neg hcond] at he
      exact hst e he

theorem foldProcess_openSet_inv {S : List (Int × Int)} (opts : PFOptions)
    (endX endY : Int) (ck : Int × Int) :
    ∀ (nbs : List Neighbor) (st : AStarState),
      (∀ e ∈ st.openSet.values, e.value ∈ S) →
      (∀ nb ∈ nbs, (nb.x, nb.y) ∈ S) →
      ∀ e ∈ (nbs.foldl (processNeighbor opts endX endY ck) st).openSet.values,
        e.value ∈ S := by
  intro nbs
  induction nbs with
  | nil => intro st hst _ e he; exact hst e he
  | cons nb nbs ih =>
    intro st hst hnbs e he
    rw [List.foldl_cons] at he
    exact ih _ (processNeighbor_openSet_inv opts endX endY ck st nb hst
      (hnbs nb (List.mem_cons_self _ _)))
      (fun nb' h => hnbs nb' (List.mem_cons_of_mem _ h)) e he

theorem astarLoop_none (map : PFMap) (entities : List (Int × Int))
    (opts : PFOptions) (endX endY : Int) (S : List (Int × Int))
    (hgoal : (endX, endY) ∉ S)
    (hclosed : ∀ p ∈ S, ∀ nb ∈ getNeighbors map entities opts p.1 p.2,
      (nb.x, nb.y) ∈ S) :
    ∀ (fuel : Nat) (st : AStarState),
      (∀ e ∈ st.openSet.values, e.value ∈ S) →
      astarLoop map entities opts endX endY fuel st = none := by
  intro fuel
  induction fuel with
  | zero => intro st _; rfl
  | succ n ih =>
    intro st hst
    unfold astarLoop
    by_cases hemp : st.openSet.isEmpty = true
    · rw [if_pos hemp]
    · rw [if_neg hemp]
      cases hdq : st.openSet.dequeue with
      | mk kopt open' =>
        cases kopt with
        | none => rfl
        | some k =>
          obtain ⟨kx, ky⟩ := k
          have hkS : (kx, ky) ∈ S := by
            rcases dequeue_fst_mem hdq with ⟨e, he, hv⟩
            rw [← hv]
            exact hst e he
          dsimp only [keyToPos]
          rw [if_neg]
          · apply ih
            apply foldProcess_openSet_inv (S := S)
            · intro e he
              exact hst e (dequeue_snd_subset hdq e he)
            · intro nb hnb
              exact hclosed (kx, ky) hkS nb hnb
          · intro ⟨h1, h2⟩
            subst h1
            subst h2
            exact hgoal hkS

/-- C8: `findPath` terminates within the configured maximum iteration
count — its search loop is bounded by `maxIterations` by construction —
and when the goal is separated from the start (any set of cells `S`
containing the start, closed under the walkable-neighbour relation of
`getNeighbors`, and excluding the goal) it returns none, the "no path"
result, rather than raising or diverging. -/
theorem findPath_disconnected_none (map : PFMap) (entities : List (Int × Int))
    (opts : PFOptions) (startX startY endX endY : Int) (S : List (Int × Int))
    (hstart : (startX, startY) ∈ S)
    (hgoal : (endX, endY) ∉ S)
    (hclosed : ∀ p ∈ S, ∀ nb ∈ getNeighbors map entities opts p.1 p.2,
      (nb.x, nb.y) ∈ S) :
    findPath map entities opts startX startY endX endY = none := by
  unfold findPath
  by_cases hguard : (!(pfIsWalkable map entities opts startX startY) ||
      !(pfIsWalkable map entities opts endX endY)) = true
  · rw [if_pos hguard]
  · rw [if_neg hguard]
    apply astarLoop_none map entities opts endX endY S hgoal hclosed
    intro e he
    rcases enqueue_values_cases _ _ _ e he with h1 | h1
    · exact absurd h1 (by simp)
    · rw [h1]
      exact hstart

/-- Witness for C8 at a concrete input: on the demo map the start (0,0)
sits in a walled-off single-cell region, the goal (2,0) is walkable but
unreachable, and `findPath` returns none. -/
theorem findPath_disconnected_none_witness :
    ((0, 0) : Int × Int) ∈ [((0, 0) : Int × Int)] ∧
    ((2, 0) : Int × Int) ∉ [((0, 0) : Int × Int)] ∧
    (∀ p ∈ [((0, 0) : Int × Int)], ∀ nb ∈ getNeighbors pfDemoMap [] {} p.1 p.2,
      (nb.x, nb.y) ∈ [((0, 0) : Int × Int)]) ∧
    findPath pfDemoMap [] {} 0 0 2 0 = none :=
  ⟨by decide, by decide, by decide,
   findPath_disconnected_none pfDemoMap [] {} 0 0 2 0 [(0, 0)]
     (by decide) (by decide) (by decide)⟩

theorem markedFrom_refl (m : Grid) : MarkedFrom m m :=
  fun _ _ => Or.inl rfl

theorem markedFrom_setVisDisc {m0 m : Grid} (h : MarkedFrom m0 m) (y x : Int) :
    MarkedFrom m0 (setVisDisc m y x) := by
  intro y' x'
  unfold setVisDisc setTile
  by_cases hp : y' = y ∧ x' = x
  · rw [if_pos hp]
    rcases hp with ⟨rfl, rfl⟩
    rcases h y' x' with h1 | h1 <;> rw [h1]
    · exact Or.inr rfl
    · exact Or.inr rfl
  · rw [if_neg hp]
    exact h y' x'

theorem charEq_of_marked {m0 m : Grid} (h : MarkedFrom m0 m) (y x : Int) :
    (m y x).char = (m0 y x).char := by
  rcases h y x with h1 | h1
  · rw [h1]
  · rw [h1]
    rfl

theorem scanRow_marked (W H ox oy radius i : Int) (s : ℚ) (oct : Nat)
    (rec : Grid → List (Int × Int) → ℚ → ℚ → Int → Grid × List (Int × Int))
    (m0 : Grid)
    (hrec : ∀ m vis a b r, MarkedFrom m0 m → MarkedFrom m0 (rec m vis a b r).1) :
    ∀ (js : List Int) (m : Grid) (vis : List (Int × Int)) (blocked : Bool) (ns : ℚ),
      MarkedFrom m0 m →
      MarkedFrom m0 (scanRow W H ox oy radius i s oct rec js m vis blocked ns).1 := by
  intro js
  induction js with
  | nil => intro m vis blocked ns hm; exact hm
  | cons j js ih =>
    intro m vis blocked ns hm
    unfold scanRow
    dsimp only
    split
    · exact ih m vis blocked ns hm
    · split
      · exact ih m vis blocked ns hm
      · have hm1 := markedFrom_setVisDisc hm
          (mapOctantToCoordinates ox oy i j oct).2 (mapOctantToCoordinates ox oy i j oct).1
        split
        · exact ih _ _ _ _ (hrec _ _ _ _ _ hm1)
        · split
          · exact ih _ _ _ _ hm1
          · exact ih _ _ _ _ hm1

theorem scanRows_marked (W H ox oy radius : Int) (oct : Nat)
    (rec : Grid → List (Int × Int) → ℚ → ℚ → Int → Grid × List (Int × Int))
    (s e : ℚ) (m0 : Grid)
    (hrec : ∀ m vis a b r, MarkedFrom m0 m → MarkedFrom m0 (rec m vis a b r).1) :
    ∀ (is : List Int) (m : Grid) (vis : List (Int × Int)),
      MarkedFrom m0 m →
      MarkedFrom m0 (scanRows W H ox oy radius oct rec s e is m vis).1 := by
  intro is
  induction is with
  | nil => intro m vis hm; exact hm
  | cons i is ih =>
    intro m vis hm
    unfold scanRows
    have hrow := scanRow_marked W H ox oy radius i s oct rec m0 hrec
      (intRange ⌊(i : ℚ) * e⌋ ⌈(i : ℚ) * s⌉) m vis false s hm
    rcases hsc : scanRow W H ox oy radius i s oct rec
      (intRange ⌊(i : ℚ) * e⌋ ⌈(i : ℚ) * s⌉) m vis false s with ⟨m1, vis1, blocked, ns⟩
    rw [hsc] at hrow
    dsimp only
    by_cases hb : blocked = true
    · rw [hb]
      simpa using hrow
    · rw [Bool.not_eq_true] at hb
      rw [hb]
      rw [if_neg (by simp)]
      exact ih m1 vis1 (by simpa using hrow)

theorem castShadowsAux_marked (W H ox oy radius : Int) (oct : Nat) (m0 : Grid) :
    ∀ (fuel : Nat) (m : Grid) (vis : List (Int × Int)) (row : Int) (s e : ℚ),
      MarkedFrom m0 m →
      MarkedFrom m0 (castShadowsAux W H ox oy radius oct fuel m vis row s e).1 := by
  intro fuel
  induction fuel with
  | zero => intro m vis row s e hm; exact hm
  | succ n ih =>
    intro m vis row s e hm
    unfold castShadowsAux
    split
    · exact hm
    · exact scanRows_marked W H ox oy radius oct _ s e m0
        (fun m' vis' a b r hm' => ih m' vis' r a b hm') (intRange row radius) m vis hm

theorem octFold_marked (W H ox oy radius : Int) (m0 : Grid) :
    ∀ (octs : List Nat) (p : Grid × List (Int × Int)), MarkedFrom m0 p.1 →
      MarkedFrom m0 (octs.foldl
        (fun (p : Grid × List (Int × Int)) octant =>
          castShadowsAux W H ox oy radius octant (radius + 2).toNat p.1 p.2 1 1 0) p).1 := by
  intro octs
  induction octs with
  | nil => intro p hp; exact hp
  | cons o os ih =>
    intro p hp
    rw [List.foldl_cons]
    exact ih _ (castShadowsAux_marked W H ox oy radius o m0 _ p.1 p.2 1 1 0 hp)

theorem calculate_marked (W H : Int) (st : FOVSt) (m : Grid) (ox oy radius : Int) :
    MarkedFrom m (calculate W H st m ox oy radius).2 := by
  unfold calculate
  split
  · exact markedFrom_refl m
  · dsimp only
    have hall := octFold_marked W H ox oy radius m (List.range 8)
      (setVisDisc m oy ox, [] ++ [(ox, oy)])
      (markedFrom_setVisDisc (markedFrom_refl m) oy ox)
    rcases hfold : (List.range 8).foldl
      (fun (p : Grid × List (Int × Int)) octant =>
        castShadowsAux W H ox oy radius octant (radius + 2).toNat p.1 p.2 1 1 0)
      (setVisDisc m oy ox, [] ++ [(ox, oy)]) with ⟨m', vis'⟩
    rw [hfold] at hall
    exact hall

/-- C6: after any visibility computation, every tile whose transient
`visible` flag is set also has its permanent `discovered` flag set (the FOV
pass never sets one without the other), and no tile's `discovered` flag is
ever cleared. -/
theorem fov_visible_implies_discovered (W H : Int) (st : FOVSt) (m : Grid)
    (ox oy radius : Int)
    (hm : ∀ y x, (m y x).visible = true → (m y x).discovered = true) :
    (∀ y x, ((calculate W H st m ox oy radius).2 y x).visible = true →
      ((calculate W H st m ox oy radius).2 y x).discovered = true) ∧
    (∀ y x, (m y x).discovered = true →
      ((calculate W H st m ox oy radius).2 y x).discovered = true) := by
  have hmk := calculate_marked W H st m ox oy radius
  constructor
  · intro y x hv
    rcases hmk y x with h1 | h1
    · rw [h1] at hv ⊢
      exact hm y x hv
    · rw [h1]
      rfl
  · intro y x hd
    rcases hmk y x with h1 | h1
    · rw [h1]
      exact hd
    · rw [h1]
      rfl

/-- Witness for C6 at a concrete input: the all-wall grid (on which no
tile is visible) on a 3-by-3 map, radius 0. -/
theorem fov_visible_implies_discovered_witness :
    (∀ y x, (initializeMap y x).visible = true →
      (initializeMap y x).discovered = true) ∧
    ((∀ y x, ((calculate 3 3 {} initializeMap 1 1 0).2 y x).visible = true →
        ((calculate 3 3 {} initializeMap 1 1 0).2 y x).discovered = true) ∧
      (∀ y x, (initializeMap y x).discovered = true →
        ((calculate 3 3 {} initializeMap 1 1 0).2 y x).discovered = true)) :=
  ⟨fun y x hv => absurd hv (by simp [initializeMap]),
   fov_visible_implies_discovered 3 3 {} initializeMap 1 1 0
     (fun y x hv => absurd hv (by simp [initializeMap]))⟩

theorem setVisDisc_char (m : Grid) (y x y' x' : Int) :
    ((setVisDisc m y x) y' x').char = (m y' x').char := by
  unfold setVisDisc setTile
  by_cases hp : y' = y ∧ x' = x
  · rw [if_pos hp]
    rcases hp with ⟨rfl, rfl⟩
    rfl
  · rw [if_neg hp]

theorem scanRow_open (W H ox oy : Int) (radius i : Int) (s : ℚ) (oct : Nat)
    (rec : Grid → List (Int × Int) → ℚ → ℚ → Int → Grid × List (Int × Int))
    (m0 : Grid)
    (hwalls : ∀ y x, 0 ≤ y → y < H → 0 ≤ x → x < W → (m0 y x).blocksVision = false) :
    ∀ (js : List Int) (m : Grid) (vis : List (Int × Int)) (ns : ℚ),
      MarkedFrom m0 m →
      ∃ m' vis',
        scanRow W H ox oy radius i s oct rec js m vis false ns = (m', vis', false, ns) ∧
        MarkedFrom m0 m' ∧
        ∀ p : Int × Int, p ∈ vis' ↔ p ∈ vis ∨ ∃ j ∈ js,
          p = mapOctantToCoordinates ox oy i j oct ∧
          (0 ≤ p.1 ∧ p.1 < W ∧ 0 ≤ p.2 ∧ p.2 < H) ∧
          (p.1 - ox) * (p.1 - ox) + (p.2 - oy) * (p.2 - oy) ≤ radius * radius := by
  intro js
  induction js with
  | nil =>
    intro m vis ns hm
    exact ⟨m, vis, rfl, hm, fun p => by simp⟩
  | cons j js ih =>
    intro m vis ns hm
    unfold scanRow
    dsimp only
    by_cases hoob : (mapOctantToCoordinates ox oy i j oct).1 < 0 ∨
        W ≤ (mapOctantToCoordinates ox oy i j oct).1 ∨
        (mapOctantToCoordinates ox oy i j oct).2 < 0 ∨
        H ≤ (mapOctantToCoordinates ox oy i j oct).2
    · rw [if_pos hoob]
      rcases ih m vis ns hm with ⟨m', vis', heq, hmk, hmem⟩
      refine ⟨m', vis', heq, hmk, fun p => ?_⟩
      rw [hmem p]
      constructor
      · rintro (h | ⟨j', hj', hp⟩)
        · exact Or.inl h
        · exact Or.inr ⟨j', List.mem_cons_of_mem _ hj', hp⟩
      · rintro (h | ⟨j', hj', hp⟩)
        · exact Or.inl h
        · rcases List.mem_cons.mp hj' with rfl | hj2
          · rcases hp with ⟨hpeq, hb, _⟩
            rw [hpeq] at hb
            exfalso
            omega
          · exact Or.inr ⟨j', hj2, hp⟩
    · rw [if_neg hoob]
      by_cases hfar : radius * radius <
          ((mapOctantToCoordinates ox oy i j oct).1 - ox) *
            ((mapOctantToCoordinates ox oy i j oct).1 - ox) +
          ((mapOctantToCoordinates ox oy i j oct).2 - oy) *
            ((mapOctantToCoordinates ox oy i j oct).2 - oy)
      · rw [if_pos hfar]
        rcases ih m vis ns hm with ⟨m', vis', heq, hmk, hmem⟩
        refine ⟨m', vis', heq, hmk, fun p => ?_⟩
        rw [hmem p]
        constructor
        · rintro (h | ⟨j', hj', hp⟩)
          · exact Or.inl h
          · exact Or.inr ⟨j', List.mem_cons_of_mem _ hj', hp⟩
        · rintro (h | ⟨j', hj', hp⟩)
          · exact Or.inl h
          · rcases List.mem_cons.mp hj' with rfl | hj2
            · rcases hp with ⟨hpeq, _, hd⟩
              rw [hpeq] at hd
              exfalso
              exact absurd hd (not_le.mpr hfar)
            · exact Or.inr ⟨j', hj2, hp⟩
      · rw [if_neg hfar]
        have hm1 : MarkedFrom m0 (setVisDisc m
            (mapOctantToCoordinates ox oy i j oct).2
            (mapOctantToCoordinates ox oy i j oct).1) :=
          markedFrom_setVisDisc hm _ _
        have hbv : ((setVisDisc m (mapOctantToCoordinates ox oy i j oct).2
            (mapOctantToCoordinates ox oy i j oct).1)
            (mapOctantToCoordinates ox oy i j oct).2
            (mapOctantToCoordinates ox oy i j oct).1).blocksVision = false := by
          have hchar := charEq_of_marked hm1
            (mapOctantToCoordinates ox oy i j oct).2
            (mapOctantToCoordinates ox oy i j oct).1
          have hw := hwalls (mapOctantToCoordinates ox oy i j oct).2
            (mapOctantToCoordinates ox oy i j oct).1
            (by omega) (by omega) (by omega) (by omega)
          unfold Tile.blocksVision at hw ⊢
          rw [hchar]
          exact hw
        rw [hbv]
        simp only [Bool.not_false, Bool.and_false, Bool.true_and, Bool.false_and,
          Bool.and_true, if_neg, Bool.false_eq_true, ite_false]
        rcases ih (setVisDisc m (mapOctantToCoordinates ox oy i j oct).2
            (mapOctantToCoordinates ox oy i j oct).1)
          (vis ++ [mapOctantToCoordinates ox oy i j oct]) ns hm1 with
          ⟨m', vis', heq, hmk, hmem⟩
        refine ⟨m', vis', heq, hmk, fun p => ?_⟩
        rw [hmem p]
        constructor
        · rintro (h | ⟨j', hj', hp⟩)
          · rcases List.mem_append.mp h with h2 | h2
            · exact Or.inl h2
            · have hpc : p = mapOctantToCoordinates ox oy i j oct := by simpa using h2
              refine Or.inr ⟨j, List.mem_cons_self _ _, hpc, ?_, ?_⟩
              · rw [hpc]; omega
              · rw [hpc]; exact not_lt.mp hfar
          · exact Or.inr ⟨j', List.mem_cons_of_mem _ hj', hp⟩
        · rintro (h | ⟨j', hj', hp⟩)
          · exact Or.inl (List.mem_append.mpr (Or.inl h))
          · rcases List.mem_cons.mp hj' with rfl | hj2
            · rcases hp with ⟨hpeq, _, _⟩
              exact Or.inl (List.mem_append.mpr (Or.inr (by simp [hpeq])))
            · exact Or.inr ⟨j', hj2, hp⟩

theorem scanRows_open (W H ox oy : Int) (radius : Int) (oct : Nat)
    (rec : Grid → List (Int × Int) → ℚ → ℚ → Int → Grid × List (Int × Int))
    (s e : ℚ) (m0 : Grid)
    (hwalls : ∀ y x, 0 ≤ y → y < H → 0 ≤ x → x < W → (m0 y x).blocksVision = false) :
    ∀ (is : List Int) (m : Grid) (vis : List (Int × Int)),
      MarkedFrom m0 m →
      ∃ m' vis',
        scanRows W H ox oy radius oct rec s e is m vis = (m', vis') ∧
        MarkedFrom m0 m' ∧
        ∀ p : Int × Int, p ∈ vis' ↔ p ∈ vis ∨ ∃ i ∈ is,
          ∃ j ∈ intRange ⌊(i : ℚ) * e⌋ ⌈(i : ℚ) * s⌉,
            p = mapOctantToCoordinates ox oy i j oct ∧
            (0 ≤ p.1 ∧ p.1 < W ∧ 0 ≤ p.2 ∧ p.2 < H) ∧
            (p.1 - ox) * (p.1 - ox) + (p.2 - oy) * (p.2 - oy) ≤ radius * radius := by
  intro is
  induction is with
  | nil =>
    intro m vis hm
    exact ⟨m, vis, rfl, hm, fun p => by simp⟩
  | cons i is ih =>
    intro m vis hm
    unfold scanRows
    rcases scanRow_open W H ox oy radius i s oct rec m0 hwalls
      (intRange ⌊(i : ℚ) * e⌋ ⌈(i : ℚ) * s⌉) m vis s hm with
      ⟨m1, vis1, heq1, hmk1, hmem1⟩
    rw [heq1]
    dsimp only
    rw [if_neg (by simp)]
    rcases ih m1 vis1 hmk1 with ⟨m', vis', heq, hmk, hmem⟩
    refine ⟨m', vis', heq, hmk, fun p => ?_⟩
    rw [hmem p, hmem1 p]
    constructor
    · rintro ((h | ⟨j, hj, hp⟩) | ⟨i', hi', hrest⟩)
      · exact Or.inl h
      · exact Or.inr ⟨i, List.mem_cons_self _ _, j, hj, hp⟩
      · exact Or.inr ⟨i', List.mem_cons_of_mem _ hi', hrest⟩
    · rintro (h | ⟨i', hi', j, hj, hp⟩)
      · exact Or.inl (Or.inl h)
      · rcases List.mem_cons.mp hi' with rfl | hi2
        · exact Or.inl (Or.inr ⟨j, hj, hp⟩)
        · exact Or.inr ⟨i', hi2, j, hj, hp⟩

theorem castShadowsAux_open (W H ox oy : Int) (radius : Int) (oct : Nat)
    (m0 : Grid)
    (hwalls : ∀ y x, 0 ≤ y → y < H → 0 ≤ x → x < W → (m0 y x).blocksVision = false) :
    ∀ (n : Nat) (m : Grid) (vis : List (Int × Int)) (row : Int),
      MarkedFrom m0 m →
      ∃ m' vis',
        castShadowsAux W H ox oy radius oct (n + 1) m vis row 1 0 = (m', vis') ∧
        MarkedFrom m0 m' ∧
        ∀ p : Int × Int, p ∈ vis' ↔ p ∈ vis ∨ ∃ i ∈ intRange row radius,
          ∃ j ∈ intRange 0 i,
            p = mapOctantToCoordinates ox oy i j oct ∧
            (0 ≤ p.1 ∧ p.1 < W ∧ 0 ≤ p.2 ∧ p.2 < H) ∧
            (p.1 - ox) * (p.1 - ox) + (p.2 - oy) * (p.2 - oy) ≤ radius * radius := by
  intro n m vis row hm
  unfold castShadowsAux
  rw [if_neg (by norm_num)]
  rcases scanRows_open W H ox oy radius oct
    (fun m vis s e r => castShadowsAux W H ox oy radius oct n m vis r s e)
    1 0 m0 hwalls (intRange row radius) m vis hm with ⟨m', vis', heq, hmk, hmem⟩
  refine ⟨m', vis', heq, hmk, fun p => ?_⟩
  rw [hmem p]
  have hrange : ∀ i : Int, intRange ⌊(i : ℚ) * 0⌋ ⌈(i : ℚ) * 1⌉ = intRange 0 i := by
    intro i
    rw [mul_zero, mul_one, Int.floor_zero, Int.ceil_intCast]
  constructor
  · rintro (h | ⟨i, hi, j, hj, hp⟩)
    · exact Or.inl h
    · rw [hrange i] at hj
      exact Or.inr ⟨i, hi, j, hj, hp⟩
  · rintro (h | ⟨i, hi, j, hj, hp⟩)
    · exact Or.inl h
    · rw [← hrange i] at hj
      exact Or.inr ⟨i, hi, j, hj, hp⟩

theorem octFold_open (W H ox oy : Int) (radius : Int) (m0 : Grid)
    (hrad : 0 ≤ radius)
    (hwalls : ∀ y x, 0 ≤ y → y < H → 0 ≤ x → x < W → (m0 y x).blocksVision = false) :
    ∀ (octs : List Nat) (m : Grid) (vis : List (Int × Int)),
      MarkedFrom m0 m →
      ∃ m' vis',
        octs.foldl
          (fun (p : Grid × List (Int × Int)) octant =>
            castShadowsAux W H ox oy radius octant (radius + 2).toNat p.1 p.2 1 1 0)
          (m, vis) = (m', vis') ∧
        MarkedFrom m0 m' ∧
        ∀ p : Int × Int, p ∈ vis' ↔ p ∈ vis ∨ ∃ oct ∈ octs, ∃ i ∈ intRange 1 radius,
          ∃ j ∈ intRange 0 i,
            p = mapOctantToCoordinates ox oy i j oct ∧
            (0 ≤ p.1 ∧ p.1 < W ∧ 0 ≤ p.2 ∧ p.2 < H) ∧
            (p.1 - ox) * (p.1 - ox) + (p.2 - oy) * (p.2 - oy) ≤ radius * radius := by
  intro octs
  induction octs with
  | nil =>
    intro m vis hm
    exact ⟨m, vis, rfl, hm, fun p => by simp⟩
  | cons oct octs ih =>
    intro m vis hm
    rw [List.foldl_cons]
    have hfuel : (radius + 2).toNat = (radius + 1).toNat + 1 := by omega
    dsimp only
    rcases castShadowsAux_open W H ox oy radius oct m0 hwalls
      (radius + 1).toNat m vis 1 hm with ⟨m1, vis1, heq1, hmk1, hmem1⟩
    have heq2 : castShadowsAux W H ox oy radius oct (radius + 2).toNat m vis 1 1 0
        = (m1, vis1) := by rw [hfuel]; exact heq1
    rw [heq2]
    rcases ih m1 vis1 hmk1 with ⟨m', vis', heq, hmk, hmem⟩
    refine ⟨m', vis', heq, hmk, fun p => ?_⟩
    rw [hmem p, hmem1 p]
    constructor
    · rintro ((h | ⟨i, hi, j, hj, hp⟩) | ⟨o, ho, hrest⟩)
      · exact Or.inl h
      · exact Or.inr ⟨oct, List.mem_cons_self _ _, i, hi, j, hj, hp⟩
      · exact Or.inr ⟨o, List.mem_cons_of_mem _ ho, hrest⟩
    · rintro (h | ⟨o, ho, i, hi, j, hj, hp⟩)
      · exact Or.inl (Or.inl h)
      · rcases List.mem_cons.mp ho with rfl | ho2
        · exact Or.inl (Or.inr ⟨i, hi, j, hj, hp⟩)
        · exact Or.inr ⟨o, ho2, i, hi, j, hj, hp⟩

theorem octant_coverage (ox oy radius x y : Int) (hrad : 0 ≤ radius)
    (hne : ¬(x = ox ∧ y = oy))
    (hdist : (x - ox) * (x - ox) + (y - oy) * (y - oy) ≤ radius * radius) :
    ∃ oct ∈ List.range 8, ∃ i ∈ intRange 1 radius, ∃ j ∈ intRange 0 i,
      (x, y) = mapOctantToCoordinates ox oy i j oct := by
  have hdx : -radius ≤ x - ox ∧ x - ox ≤ radius := by
    constructor <;> nlinarith [mul_self_nonneg (y - oy), mul_self_nonneg (x - ox)]
  have hdy : -radius ≤ y - oy ∧ y - oy ≤ radius := by
    constructor <;> nlinarith [mul_self_nonneg (y - oy), mul_self_nonneg (x - ox)]
  rcases le_total (x - ox).natAbs (y - oy).natAbs with hm | hm
  · -- the vertical offset dominates: octants 0, 7, 3, 4
    rcases lt_trichotomy (y - oy) 0 with hy | hy | hy
    · rcases le_total 0 (x - ox) with hx | hx
      · refine ⟨0, by decide, oy - y, mem_intRange.mpr (by omega), x - ox,
          mem_intRange.mpr (by omega), ?_⟩
        show (x, y) = (ox + (x - ox), oy - (oy - y))
        rw [Prod.mk.injEq]; exact ⟨by omega, by omega⟩
      · refine ⟨7, by decide, oy - y, mem_intRange.mpr (by omega), ox - x,
          mem_intRange.mpr (by omega), ?_⟩
        show (x, y) = (ox - (ox - x), oy - (oy - y))
        rw [Prod.mk.injEq]; exact ⟨by omega, by omega⟩
    · exact absurd ⟨by omega, by omega⟩ hne
    · rcases le_total 0 (x - ox) with hx | hx
      · refine ⟨3, by decide, y - oy, mem_intRange.mpr (by omega), x - ox,
          mem_intRange.mpr (by omega), ?_⟩
        show (x, y) = (ox + (x - ox), oy + (y - oy))
        rw [Prod.mk.injEq]; exact ⟨by omega, by omega⟩
      · refine ⟨4, by decide, y - oy, mem_intRange.mpr (by omega), ox - x,
          mem_intRange.mpr (by omega), ?_⟩
        show (x, y) = (ox - (ox - x), oy + (y - oy))
        rw [Prod.mk.injEq]; exact ⟨by omega, by omega⟩
  · -- the horizontal offset dominates: octants 1, 2, 5, 6
    rcases lt_trichotomy (x - ox) 0 with hx | hx | hx
    · rcases le_total 0 (y - oy) with hy | hy
      · refine ⟨5, by decide, ox - x, mem_intRange.mpr (by omega), y - oy,
          mem_intRange.mpr (by omega), ?_⟩
        show (x, y) = (ox - (ox - x), oy + (y - oy))
        rw [Prod.mk.injEq]; exact ⟨by omega, by omega⟩
      · refine ⟨6, by decide, ox - x, mem_intRange.mpr (by omega), oy - y,
          mem_intRange.mpr (by omega), ?_⟩
        show (x, y) = (ox - (ox - x), oy - (oy - y))
        rw [Prod.mk.injEq]; exact ⟨by omega, by omega⟩
    · exact absurd ⟨by omega, by omega⟩ hne
    · rcases le_total 0 (y - oy) with hy | hy
      · refine ⟨2, by decide, x - ox, mem_intRange.mpr (by omega), y - oy,
          mem_intRange.mpr (by omega), ?_⟩
        show (x, y) = (ox + (x - ox), oy + (y - oy))
        rw [Prod.mk.injEq]; exact ⟨by omega, by omega⟩
      · refine ⟨1, by decide, x - ox, mem_intRange.mpr (by omega), oy - y,
          mem_intRange.mpr (by omega), ?_⟩
        show (x, y) = (ox + (x - ox), oy - (oy - y))
        rw [Prod.mk.injEq]; exact ⟨by omega, by omega⟩

/-- C5: in a wall-free open area the shadow-casting FOV is exact: starting
from a fresh cache state (so the origin/radius cache cannot hit), the set of
coordinates `calculate` returns as visible is exactly the Euclidean disk
`(x-ox)^2 + (y-oy)^2 <= radius^2` around the origin intersected with the
grid bounds.  With no vision-blocking tile the scan never sets `blocked`,
every octant wedge is fully visited, and the eight wedges cover the disk. -/
theorem fov_open_area_disk (W H ox oy radius : Int) (m : Grid)
    (hox : 0 ≤ ox) (hoxW : ox < W) (hoy : 0 ≤ oy) (hoyH : oy < H)
    (hrad : 0 ≤ radius)
    (hwalls : ∀ y x, 0 ≤ y → y < H → 0 ≤ x → x < W → (m y x).blocksVision = false) :
    ∀ x y : Int,
      (x, y) ∈ (calculate W H {} m ox oy radius).1.visibleTiles ↔
        (0 ≤ x ∧ x < W ∧ 0 ≤ y ∧ y < H) ∧
        (x - ox) * (x - ox) + (y - oy) * (y - oy) ≤ radius * radius := by
  intro x y
  unfold calculate
  rw [if_neg (fun h => by
    have h1 : (-1 : Int) = ox := h.1
    omega)]
  rcases octFold_open W H ox oy radius m hrad hwalls (List.range 8)
    (setVisDisc m oy ox) [(ox, oy)]
    (markedFrom_setVisDisc (markedFrom_refl m) oy ox) with
    ⟨m', vis', hfold, hmk, hmem⟩
  simp only [List.nil_append]
  rw [hfold]
  dsimp only
  rw [hmem (x, y)]
  constructor
  · rintro (h | ⟨oct, hoct, i, hi, j, hj, hpmap, hbounds, hdist⟩)
    · rcases List.mem_singleton.mp h with h
      have hx : x = ox := congrArg Prod.fst h
      have hy : y = oy := congrArg Prod.snd h
      subst hx; subst hy
      exact ⟨⟨hox, hoxW, hoy, hoyH⟩, by nlinarith⟩
    · exact ⟨hbounds, hdist⟩
  · rintro ⟨hb, hd⟩
    by_cases hc : x = ox ∧ y = oy
    · exact Or.inl (List.mem_singleton.mpr (by rw [hc.1, hc.2]))
    · rcases octant_coverage ox oy radius x y hrad hc hd with
        ⟨oct, hoct, i, hi, j, hj, hmap⟩
      exact Or.inr ⟨oct, hoct, i, hi, j, hj, hmap, hb, hd⟩

theorem fov_open_area_disk_witness :
    ((0 : Int), (0 : Int)) ∈ (calculate 1 1 {} floorAt00 0 0 0).1.visibleTiles :=
  (fov_open_area_disk 1 1 0 0 0 floorAt00 (by decide) (by decide) (by decide)
      (by decide) (by decide)
      (fun y x hy hyH hx hxW => by
        have hy0 : y = 0 := by omega
        have hx0 : x = 0 := by omega
        subst hy0; subst hx0
        decide) 0 0).mpr
    ⟨⟨by decide, by decide, by decide, by decide⟩, by decide⟩
